import Mathlib

/-! Verification development for firehose-lambda-rs (src/src/main.rs): an AWS
Lambda function that transforms Kinesis Firehose records holding Apache
access-log lines into JSON.  The Rust code is shallowly embedded: text is
`List Char`, byte payloads are `List Nat` (each < 256), machine integers are
`Nat` with explicit bounds, fallible stages return `Option`/`Except`, and a
Rust process abort (an uncaught panic) is the `none` case of an outer
`Option`. -/

/-! ## Character classes of the compiled pattern

The source compiles (lazy_static, once per process)
`^([\d.]+) (\S+) (\S+) \[([\w:/]+\s[\+\-]\d{2}:?\d{2}){0,1}\] "(.+?)" (\d{3}) (\d+)` .
`\s`/`\S` use the Unicode White_Space set of the regex crate.  `\d` and `\w`
are modelled on their ASCII subsets; the claims under study never involve
non-ASCII digits or word characters. -/

def isSpaceU (c : Char) : Bool :=
  c = ' ' || c = '\t' || c = '\n' || c.toNat = 0x0B || c.toNat = 0x0C ||
  c = '\r' || c.toNat = 0x85 || c.toNat = 0xA0 || c.toNat = 0x1680 ||
  (0x2000 ≤ c.toNat && c.toNat ≤ 0x200A) || c.toNat = 0x2028 ||
  c.toNat = 0x2029 || c.toNat = 0x202F || c.toNat = 0x205F ||
  c.toNat = 0x3000

/-- Class `[\d.]` of capture group 1. -/
def isDigitDot (c : Char) : Bool := c.isDigit || c = '.'

/-- Class `\S` of capture groups 2 and 3. -/
def isNonSpace (c : Char) : Bool := !(isSpaceU c)

/-- Class `[\w:/]` inside the optional timestamp group. -/
def isTsWord (c : Char) : Bool := c.isAlphanum || c = '_' || c = ':' || c = '/'

/-- Class `[\+\-]` (the offset sign). -/
def isSign (c : Char) : Bool := c = '+' || c = '-'

/-! ## A backtracking matcher for the specific pattern

The pattern is anchored at the start and its greedy pieces (`[\d.]+ `,
`\S+ `, `[\w:/]+\s`, trailing `\d+`, the fixed-width digit runs, and `:?`
followed by a digit) each admit exactly one viable extent, because the
character that must follow each greedy run is excluded from the run's own
class.  The only genuine branch points of leftmost-first matching are the
optional group `(...){0,1}` (one occurrence preferred) and the lazy `(.+?)`
(shortest extent preferred); both are implemented explicitly below. -/

/-- Maximal run of characters satisfying `p` together with the rest. -/
def munch (p : Char → Bool) : List Char → List Char × List Char
  | [] => ([], [])
  | c :: rest =>
    if p c then
      let (u, v) := munch p rest
      (c :: u, v)
    else ([], c :: rest)

/-- One-or-more maximal run (`X+` directly followed by a non-`X` literal). -/
def munch1 (p : Char → Bool) (cs : List Char) : Option (List Char × List Char) :=
  match cs with
  | [] => none
  | c :: rest =>
    if p c then
      let (u, v) := munch p rest
      some (c :: u, v)
    else none

/-- Consume one expected literal character. -/
def expect (c : Char) (cs : List Char) : Option (List Char) :=
  match cs with
  | [] => none
  | x :: rest => if x = c then some rest else none

/-- Consume one character of class `\d`. -/
def readDigit (cs : List Char) : Option (Char × List Char) :=
  match cs with
  | [] => none
  | c :: rest => if c.isDigit then some (c, rest) else none

/-- Matcher for one occurrence of the group `[\w:/]+\s[\+\-]\d{2}:?\d{2}`:
returns the matched text (the value of capture group 4) and the rest.  Each
piece admits a single viable extent, so no backtracking happens inside. -/
def tryTs (cs : List Char) : Option (List Char × List Char) :=
  match munch1 isTsWord cs with
  | none => none
  | some (u, rest) =>
    match rest with
    | [] => none
    | w :: rest1 =>
      if isSpaceU w then
        match rest1 with
        | [] => none
        | s :: rest2 =>
          if isSign s then
            match readDigit rest2 with
            | none => none
            | some (d1, r3) =>
              match readDigit r3 with
              | none => none
              | some (d2, r4) =>
                match r4 with
                | [] => none
                | c0 :: r5 =>
                  if c0 = ':' then
                    match readDigit r5 with
                    | none => none
                    | some (d3, r6) =>
                      match readDigit r6 with
                      | none => none
                      | some (d4, r7) =>
                        some (u ++ [w, s, d1, d2, ':', d3, d4], r7)
                  else
                    match readDigit (c0 :: r5) with
                    | none => none
                    | some (d3, r6) =>
                      match readDigit r6 with
                      | none => none
                      | some (d4, r7) =>
                        some (u ++ [w, s, d1, d2, d3, d4], r7)
          else none
      else none

/-- Matcher for the continuation `" (\d{3}) (\d+)` that must follow the lazy
group 5; returns captures 6 and 7.  Anything after the digit run of group 7
is ignored (the pattern is not anchored at the end). -/
def tryCont (cs : List Char) : Option (List Char × List Char) :=
  match cs with
  | [] => none
  | q :: rest0 =>
    if q = '"' then
      match rest0 with
      | [] => none
      | sp :: rest1 =>
        if sp = ' ' then
          match readDigit rest1 with
          | none => none
          | some (d1, r1) =>
            match readDigit r1 with
            | none => none
            | some (d2, r2) =>
              match readDigit r2 with
              | none => none
              | some (d3, r3) =>
                match r3 with
                | [] => none
                | sp2 :: r4 =>
                  if sp2 = ' ' then
                    match munch1 Char.isDigit r4 with
                    | none => none
                    | some (g7, _) => some ([d1, d2, d3], g7)
                  else none
        else none
    else none

/-- Lazy extension loop of `(.+?)`: at each position first try the
continuation, then (shortest match preferred) extend group 5 by one more
character, which `.` requires to differ from a newline. -/
def g5loop (acc : List Char) (rest : List Char) : Option (List Char × List Char × List Char) :=
  match tryCont rest with
  | some (g6, g7) => some (acc.reverse, g6, g7)
  | none =>
    match rest with
    | [] => none
    | c :: rest1 => if c = '\n' then none else g5loop (c :: acc) rest1

/-- Matcher for ` "(.+?)" (\d{3}) (\d+)` (everything after `\]`). -/
def afterBracket (cs : List Char) : Option (List Char × List Char × List Char) :=
  match expect ' ' cs with
  | none => none
  | some r1 =>
    match expect '"' r1 with
    | none => none
    | some r2 =>
      match r2 with
      | [] => none
      | c :: r3 => if c = '\n' then none else g5loop [c] r3

/-- The seven capture groups of the pattern.  Group 4 is optional: `none`
means the group did not participate in the match. -/
structure Caps where
  g1 : List Char
  g2 : List Char
  g3 : List Char
  g4 : Option (List Char)
  g5 : List Char
  g6 : List Char
  g7 : List Char
deriving DecidableEq

/-- Model of `RE.captures(s)`.  The greedy option `(...){0,1}` prefers one
occurrence; if the group (or anything after it) fails, leftmost-first
matching retries with zero occurrences. -/
def matchRE (cs : List Char) : Option Caps :=
  match munch1 isDigitDot cs with
  | none => none
  | some (g1, r1) =>
    match expect ' ' r1 with
    | none => none
    | some r2 =>
      match munch1 isNonSpace r2 with
      | none => none
      | some (g2, r3) =>
        match expect ' ' r3 with
        | none => none
        | some r4 =>
          match munch1 isNonSpace r4 with
          | none => none
          | some (g3, r5) =>
            match expect ' ' r5 with
            | none => none
            | some r6 =>
              match expect '[' r6 with
              | none => none
              | some r7 =>
                let withTs : Option Caps :=
                  match tryTs r7 with
                  | none => none
                  | some (cap4, r8) =>
                    match expect ']' r8 with
                    | none => none
                    | some r9 =>
                      match afterBracket r9 with
                      | none => none
                      | some (g5, g6, g7) => some ⟨g1, g2, g3, some cap4, g5, g6, g7⟩
                match withTs with
                | some caps => some caps
                | none =>
                  match expect ']' r7 with
                  | none => none
                  | some r9 =>
                    match afterBracket r9 with
                    | none => none
                    | some (g5, g6, g7) => some ⟨g1, g2, g3, none, g5, g6, g7⟩

/-! ## Numeric conversion (`str::parse::<u32>`)

Rust's `u32::from_str` accepts an optional leading `+`, then one or more
ASCII digits, with a checked accumulator; since the accumulator is monotone,
it fails exactly when the denoted value exceeds `u32::MAX`. -/

/-- Value denoted by a digit string (the fold Rust's parser computes). -/
def natOfDigitsAux (acc : Nat) : List Char → Nat
  | [] => acc
  | c :: cs => natOfDigitsAux (acc * 10 + (c.toNat - 48)) cs

def natOfDigits (cs : List Char) : Nat := natOfDigitsAux 0 cs

def u32MAX : Nat := 4294967295

/-- Model of `str::parse::<u32>()`; `none` is a `ParseIntError`. -/
def parseU32 (cs : List Char) : Option Nat :=
  let ds := match cs with
    | c :: rest => if c = '+' then rest else c :: rest
    | [] => []
  if ds = [] then none
  else if ds.all Char.isDigit then
    if natOfDigits ds ≤ u32MAX then some (natOfDigits ds) else none
  else none

/-! ## Model of chrono: `DateTime::parse_from_str`, `to_rfc3339`,
`with_timezone(&Utc)`

A `DateTime<FixedOffset>` stores the instant as a naive UTC datetime plus an
offset; we model the instant directly as seconds since the epoch.  Calendar
arithmetic is the proleptic Gregorian calendar (as in chrono), via the
standard civil-from-days / days-from-civil algorithms. -/

structure FixedDT where
  naiveUtc : Int
  offset : Int
deriving DecidableEq

def isLeapYear (y : Int) : Bool :=
  (y.emod 4 = 0 && y.emod 100 ≠ 0) || y.emod 400 = 0

def daysInMonth (y : Int) (m : Nat) : Nat :=
  match m with
  | 1 => 31
  | 2 => if isLeapYear y then 29 else 28
  | 3 => 31
  | 4 => 30
  | 5 => 31
  | 6 => 30
  | 7 => 31
  | 8 => 31
  | 9 => 30
  | 10 => 31
  | 11 => 30
  | 12 => 31
  | _ => 0

/-- Days since 1970-01-01 of a proleptic Gregorian date. -/
def daysFromCivil (y : Int) (m d : Nat) : Int :=
  let y1 : Int := if m ≤ 2 then y - 1 else y
  let era : Int := y1.fdiv 400
  let yoe : Nat := (y1 - era * 400).toNat
  let mp : Nat := if 2 < m then m - 3 else m + 9
  let doy : Nat := (153 * mp + 2) / 5 + d - 1
  let doe : Nat := yoe * 365 + yoe / 4 - yoe / 100 + doy
  era * 146097 + (doe : Int) - 719468

/-- Proleptic Gregorian date of a count of days since 1970-01-01. -/
def civilFromDays (z0 : Int) : Int × Nat × Nat :=
  let z : Int := z0 + 719468
  let era : Int := z.fdiv 146097
  let doe : Nat := (z - era * 146097).toNat
  let yoe : Nat := (doe - doe / 1460 + doe / 36524 - doe / 146096) / 365
  let doy : Nat := doe - (365 * yoe + yoe / 4 - yoe / 100)
  let mp : Nat := (5 * doy + 2) / 153
  let d : Nat := doy - (153 * mp + 2) / 5 + 1
  let m : Nat := if mp < 10 then mp + 3 else mp - 9
  (era * 400 + (yoe : Int) + (if m ≤ 2 then 1 else 0), m, d)

/-- chrono `str::trim_left` (Unicode White_Space). -/
def trimL (cs : List Char) : List Char := cs.dropWhile isSpaceU

/-- Up to `mx` leading ASCII digits and the rest. -/
def scanDigitsTake : Nat → List Char → List Char × List Char
  | 0, cs => ([], cs)
  | _ + 1, [] => ([], [])
  | k + 1, c :: rest =>
    if c.isDigit then
      let (u, v) := scanDigitsTake k rest
      (c :: u, v)
    else ([], c :: rest)

/-- chrono `scan::number(s, mn, mx)`: greedy digits, at least `mn` of them,
at most `mx`. -/
def scanNumber (mn mx : Nat) (cs : List Char) : Option (Nat × List Char) :=
  let (u, v) := scanDigitsTake mx cs
  if mn ≤ u.length then some (natOfDigits u, v) else none

def monthAbbrevs : List (List Char) :=
  ["jan".data, "feb".data, "mar".data, "apr".data, "may".data, "jun".data,
   "jul".data, "aug".data, "sep".data, "oct".data, "nov".data, "dec".data]

/-- chrono `scan::short_month0`: three characters compared ASCII
case-insensitively against the English month abbreviations. -/
def shortMonth (cs : List Char) : Option (Nat × List Char) :=
  match cs with
  | a :: b :: c :: rest =>
    match monthAbbrevs.findIdx? (fun m => m = [a.toLower, b.toLower, c.toLower]) with
    | some i => some (i + 1, rest)
    | none => none
  | _ => none

/-- chrono `scan::timezone_offset(s, scan::colon_or_space)`: a sign, two
digit hours, any run of colons and whitespace, two digit minutes.  chrono's
parser maps both `%:z` and `%z` to this same lenient scanner, which is why
both offset spellings are accepted by either format string. -/
def scanTzOffset (cs : List Char) : Option (Int × List Char) :=
  match cs with
  | [] => none
  | s :: rest =>
    if isSign s then
      match rest with
      | h1 :: h2 :: rest2 =>
        if h1.isDigit && h2.isDigit then
          match rest2.dropWhile (fun c => c = ':' || isSpaceU c) with
          | m1 :: m2 :: rest4 =>
            if m1.isDigit && m2.isDigit then
              let hh : Nat := (h1.toNat - 48) * 10 + (h2.toNat - 48)
              let mm : Nat := (m1.toNat - 48) * 10 + (m2.toNat - 48)
              let secs : Int := (hh * 3600 + mm * 60 : Nat)
              some (if s = '-' then -secs else secs, rest4)
            else none
          | _ => none
        else none
      | _ => none
    else none

/-- chrono `%Y` when parsing: an optional sign (unbounded digits) or at most
four digits.  (A signed year cannot occur in text captured by group 4, whose
class excludes `+` and `-`.) -/
def scanYear (cs : List Char) : Option (Int × List Char) :=
  match cs with
  | '-' :: rest =>
    match scanNumber 1 rest.length rest with
    | none => none
    | some (v, r) => some (-(v : Int), r)
  | '+' :: rest =>
    match scanNumber 1 rest.length rest with
    | none => none
    | some (v, r) => some ((v : Int), r)
  | _ =>
    match scanNumber 1 4 cs with
    | none => none
    | some (v, r) => some ((v : Int), r)

/-- Model of `DateTime::parse_from_str(s, "%d/%b/%Y:%H:%M:%S %:z")` (the
`%z` variant parses identically, see `scanTzOffset`).  Numeric fields skip
leading whitespace (chrono trims before each numeric/offset item); the whole
input must be consumed; the resolved fields are validated as chrono's
`Parsed::to_datetime` does (calendar-valid date, hour < 24, minute < 60,
second < 60, |offset| < 86400, year within chrono's NaiveDate range).
Leap-second input (second 60) is not modelled. -/
def parseApacheTs (cs : List Char) : Option FixedDT :=
  match scanNumber 1 2 (trimL cs) with
  | none => none
  | some (d, s1) =>
    match expect '/' s1 with
    | none => none
    | some s2 =>
      match shortMonth s2 with
      | none => none
      | some (m, s3) =>
        match expect '/' s3 with
        | none => none
        | some s4 =>
          match scanYear (trimL s4) with
          | none => none
          | some (y, s5) =>
            match expect ':' s5 with
            | none => none
            | some s6 =>
              match scanNumber 1 2 (trimL s6) with
              | none => none
              | some (hh, s7) =>
                match expect ':' s7 with
                | none => none
                | some s8 =>
                  match scanNumber 1 2 (trimL s8) with
                  | none => none
                  | some (mi, s9) =>
                    match expect ':' s9 with
                    | none => none
                    | some s10 =>
                      match scanNumber 1 2 (trimL s10) with
                      | none => none
                      | some (ss, s11) =>
                        match scanTzOffset (trimL s11) with
                        | none => none
                        | some (off, s12) =>
                          if s12 = [] then
                            if 1 ≤ m && m ≤ 12 && 1 ≤ d && d ≤ daysInMonth y m &&
                               hh < 24 && mi < 60 && ss < 60 &&
                               -86400 < off && off < 86400 &&
                               -262144 ≤ y && y ≤ 262143 then
                              some ⟨daysFromCivil y m d * 86400 +
                                    ((hh * 3600 + mi * 60 + ss : Nat) : Int) - off, off⟩
                            else none
                          else none

/-- First attempt of the source: format string `"%d/%b/%Y:%H:%M:%S %:z"`. -/
def parseFromStrColonFmt (cs : List Char) : Option FixedDT := parseApacheTs cs

/-- Second attempt of the source: format string `"%d/%b/%Y:%H:%M:%S %z"`;
chrono parses `%z` with the same lenient offset scanner as `%:z`. -/
def parseFromStrPlainFmt (cs : List Char) : Option FixedDT := parseApacheTs cs

/-- The source's `parse_from_str(.., "%:z").or(parse_from_str(.., "%z"))`:
the first variant that succeeds wins. -/
def normalizeTs (cs : List Char) : Option FixedDT :=
  match parseFromStrColonFmt cs with
  | some dt => some dt
  | none => parseFromStrPlainFmt cs

/-- chrono `with_timezone(&Utc)`: the stored instant is unchanged, only the
offset becomes zero. -/
def withTimezoneUtc (dt : FixedDT) : FixedDT := ⟨dt.naiveUtc, 0⟩

/-- Decimal digits of `n`, zero-padded on the left to width `w`. -/
def padZeros (w : Nat) (n : Nat) : List Char :=
  let ds := (toString n).data
  List.replicate (w - ds.length) '0' ++ ds

/-- chrono `%Y` when formatting: years 0–9999 print as four zero-padded
digits, anything else with an explicit sign. -/
def printYear (y : Int) : List Char :=
  if 0 ≤ y && y ≤ 9999 then padZeros 4 y.toNat
  else (if y < 0 then '-' else '+') :: padZeros 4 y.natAbs

/-- chrono `%:z`: signed zero-padded hours, a colon, minutes. -/
def printOffset (off : Int) : List Char :=
  let a := off.natAbs
  (if off < 0 then '-' else '+') :: (padZeros 2 (a / 3600) ++ ':' :: padZeros 2 (a / 60 % 60))

/-- chrono `to_rfc3339`: `%Y-%m-%dT%H:%M:%S%.f%:z` on the local datetime
(instant plus offset); the parsed timestamps carry no sub-second part, so
`%.f` prints nothing. -/
def toRFC3339 (dt : FixedDT) : List Char :=
  let loc := dt.naiveUtc + dt.offset
  let days := loc.fdiv 86400
  let sod := (loc - days * 86400).toNat
  let ymd := civilFromDays days
  printYear ymd.1 ++ '-' :: padZeros 2 ymd.2.1 ++ '-' :: padZeros 2 ymd.2.2 ++
  'T' :: padZeros 2 (sod / 3600) ++ ':' :: padZeros 2 (sod % 3600 / 60) ++
  ':' :: padZeros 2 (sod % 60) ++ printOffset dt.offset

/-! ## Model of serde_json

Only the `Value` variants this program produces are modelled.  serde_json's
default map is a `BTreeMap`, so a serialized struct carries its fields in
sorted key order. -/

inductive Value where
  | vStr : List Char → Value
  | vNum : Nat → Value
  | vObj : List (List Char × Value) → Value

/-- Field access in a JSON object (used to state claims about produced
JSON; `serde_json` map lookup). -/
def jsonLookup (key : List Char) (v : Value) : Option Value :=
  match v with
  | .vObj fields => (fields.find? (fun p => p.1 = key)).map (fun p => p.2)
  | _ => none

/-- The `AccessLog` struct of the source.  `response` and `bytes` are `u32`
values (bounds guaranteed by `parseU32`).  The two timestamp fields are
renamed by `#[serde(rename = ..)]` when serialized. -/
structure AccessLog where
  host : List Char
  ident : List Char
  authuser : List Char
  timestamp : List Char
  timestamp_utc : List Char
  request : List Char
  response : Nat
  bytes : Nat

/-- `serde_json::to_value` of an `AccessLog`: a JSON object whose keys are
the serde names (`@timestamp`, `@timestamp_utc` renamed; the rest as in the
struct), in BTreeMap (sorted) order. -/
def AccessLog.toValue (l : AccessLog) : Value :=
  .vObj [("@timestamp".data, .vStr l.timestamp),
         ("@timestamp_utc".data, .vStr l.timestamp_utc),
         ("authuser".data, .vStr l.authuser),
         ("bytes".data, .vNum l.bytes),
         ("host".data, .vStr l.host),
         ("ident".data, .vStr l.ident),
         ("request".data, .vStr l.request),
         ("response".data, .vNum l.response)]

/-- serde_json string escaping: quote, backslash, and control characters
(the five short escapes, otherwise `\u00XX`). -/
def escapeChar (c : Char) : List Char :=
  if c = '"' then ['\\', '"']
  else if c = '\\' then ['\\', '\\']
  else if c.toNat = 8 then ['\\', 'b']
  else if c = '\t' then ['\\', 't']
  else if c = '\n' then ['\\', 'n']
  else if c.toNat = 12 then ['\\', 'f']
  else if c = '\r' then ['\\', 'r']
  else if c.toNat < 32 then
    let hex := fun (n : Nat) => if n < 10 then Char.ofNat (48 + n) else Char.ofNat (87 + n)
    ['\\', 'u', '0', '0', hex (c.toNat / 16), hex (c.toNat % 16)]
  else [c]

/-- serde_json compact printing of a `Value` (as `to_string`/`to_vec`). -/
def printValue : Value → List Char
  | .vStr s => '"' :: (s.map escapeChar).flatten ++ ['"']
  | .vNum n => (toString n).data
  | .vObj fields =>
    let inner := fields.attach.map (fun p =>
      '"' :: (p.1.1.map escapeChar).flatten ++ '"' :: ':' :: printValue p.1.2)
    '\x7b' :: (List.intercalate [','] inner) ++ ['\x7d']
decreasing_by
  obtain ⟨⟨k, v⟩, hp⟩ := p
  have h1 := List.sizeOf_lt_of_mem hp
  simp at h1 ⊢
  omega

/-! ## UTF-8 (Rust `String::from_utf8` and the bytes of a `String`) -/

/-- UTF-8 bytes of one character. -/
def utf8EncodeChar (c : Char) : List Nat :=
  let n := c.toNat
  if n < 0x80 then [n]
  else if n < 0x800 then [0xC0 + n / 64, 0x80 + n % 64]
  else if n < 0x10000 then [0xE0 + n / 4096, 0x80 + n / 64 % 64, 0x80 + n % 64]
  else [0xF0 + n / 262144, 0x80 + n / 4096 % 64, 0x80 + n / 64 % 64, 0x80 + n % 64]

def utf8Encode (cs : List Char) : List Nat := (cs.map utf8EncodeChar).flatten

def isCont (b : Nat) : Bool := 0x80 ≤ b && b ≤ 0xBF

/-- Strict UTF-8 decoding (fuel-driven; the fuel is the list length, which
always suffices).  Rejects overlong encodings, surrogates, values above
U+10FFFF and truncated sequences, exactly as Rust's validation does. -/
def utf8DecodeGo : Nat → List Nat → Option (List Char)
  | 0, [] => some []
  | 0, _ :: _ => none
  | _ + 1, [] => some []
  | fuel + 1, b :: rest =>
    if b < 0x80 then
      (utf8DecodeGo fuel rest).map (fun cs => Char.ofNat b :: cs)
    else if 0xC2 ≤ b && b ≤ 0xDF then
      match rest with
      | c1 :: rest1 =>
        if isCont c1 then
          (utf8DecodeGo fuel rest1).map (fun cs => Char.ofNat ((b - 0xC0) * 64 + (c1 - 0x80)) :: cs)
        else none
      | [] => none
    else if 0xE0 ≤ b && b ≤ 0xEF then
      match rest with
      | c1 :: c2 :: rest2 =>
        let lo1 := if b = 0xE0 then 0xA0 else 0x80
        let hi1 := if b = 0xED then 0x9F else 0xBF
        if (lo1 ≤ c1 && c1 ≤ hi1) && isCont c2 then
          (utf8DecodeGo fuel rest2).map (fun cs =>
            Char.ofNat ((b - 0xE0) * 4096 + (c1 - 0x80) * 64 + (c2 - 0x80)) :: cs)
        else none
      | _ => none
    else if 0xF0 ≤ b && b ≤ 0xF4 then
      match rest with
      | c1 :: c2 :: c3 :: rest3 =>
        let lo1 := if b = 0xF0 then 0x90 else 0x80
        let hi1 := if b = 0xF4 then 0x8F else 0xBF
        if (lo1 ≤ c1 && c1 ≤ hi1) && isCont c2 && isCont c3 then
          (utf8DecodeGo fuel rest3).map (fun cs =>
            Char.ofNat ((b - 0xF0) * 262144 + (c1 - 0x80) * 4096 + (c2 - 0x80) * 64 + (c3 - 0x80)) :: cs)
        else none
      | _ => none
    else none

/-- Model of `String::from_utf8`; `none` is a `FromUtf8Error`. -/
def utf8Decode (bs : List Nat) : Option (List Char) := utf8DecodeGo bs.length bs

/-! ## The per-record pipeline and the batch handler -/

/-- The error enum of the source; the diagnostic payloads carried by the
Rust variants are dropped (nothing observes them). -/
inductive LogError where
  | RegexParseError
  | UTF8Error
  | DateTimeParseError
  | IntError
  | JsonError
deriving DecidableEq

/-- Model of `apache_log2json`.  The outer `Option` is Rust control flow
that escapes the `Result`: `&xs[4]` indexes capture group 4 through
`Index<usize> for Captures`, which aborts (panics) when the optional group
did not participate in the match; that abort is `none`.
`serde_json::to_value` cannot fail on this struct, so the `JsonError` arm of
the source is never taken.  `xs[6]` is parsed twice, as in the source (the
discarded statement and the `response` field initializer). -/
def apache_log2json (s : List Char) : Option (Except LogError Value) :=
  match matchRE s with
  | none => some (.error .RegexParseError)
  | some xs =>
    match xs.g4 with
    | none => none
    | some ts =>
      match normalizeTs ts with
      | none => some (.error .DateTimeParseError)
      | some time =>
        match parseU32 xs.g6 with
        | none => some (.error .IntError)
        | some _ =>
          match parseU32 xs.g6 with
          | none => some (.error .IntError)
          | some resp =>
            match parseU32 xs.g7 with
            | none => some (.error .IntError)
            | some byt =>
              some (.ok (AccessLog.toValue
                ⟨xs.g1, xs.g2, xs.g3, toRFC3339 time,
                 toRFC3339 (withTimezoneUtc time), xs.g5, resp, byt⟩))

/-- Model of `transform_data`: UTF-8 decode, transform, serialize.
`serde_json::to_vec` of an already-built `Value` cannot fail. -/
def transform_data (data : List Nat) : Option (Except LogError (List Nat)) :=
  match utf8Decode data with
  | none => some (.error .UTF8Error)
  | some s =>
    match apache_log2json s with
    | none => none
    | some (.error e) => some (.error e)
    | some (.ok r) => some (.ok (utf8Encode (printValue r)))

/-- An input record: the caller-assigned identifier and the payload bytes
(the fields of `KinesisFirehoseEventRecord` this program reads). -/
structure KinesisFirehoseEventRecord where
  record_id : List Char
  data : List Nat

/-- An output record; `result` is always `none` in this program. -/
structure KinesisFirehoseResponseRecord where
  record_id : List Char
  data : List Nat
  result : Option (List Char)

structure KinesisFirehoseEvent where
  records : List KinesisFirehoseEventRecord

structure KinesisFirehoseResponse where
  records : List KinesisFirehoseResponseRecord

/-- Model of `transform_record`: on any `Err` from `transform_data` the
`unwrap_or` fallback emits the original identifier and the original bytes; a
panic inside propagates (`none`). -/
def transform_record (record : KinesisFirehoseEventRecord) : Option KinesisFirehoseResponseRecord :=
  match transform_data record.data with
  | none => none
  | some (.ok x) => some ⟨record.record_id, x, none⟩
  | some (.error _) => some ⟨record.record_id, record.data, none⟩

/-- `none` as soon as one element is `none`; a panic in any rayon task
aborts the whole `collect`. -/
def sequenceOpt : List (Option α) → Option (List α)
  | [] => some []
  | none :: _ => none
  | some a :: rest => (sequenceOpt rest).map (fun xs => a :: xs)

/-- Model of `my_handler`: rayon's indexed `into_par_iter().map().collect()`
is order-preserving, so the handler is the in-order map; `none` models a
panic escaping the batch. -/
def my_handler (event : KinesisFirehoseEvent) : Option KinesisFirehoseResponse :=
  (sequenceOpt (event.records.map transform_record)).map KinesisFirehoseResponse.mk

/-! ## An explicit schedule model for the parallel map

`parRun` executes the per-record tasks in an arbitrary completion order
`ord`, writing each result into its input slot; `my_handler_par` then
collects the slots in index order, as rayon's order-preserving `collect`
does.  A schedule that is a permutation of the indices reproduces
`my_handler` exactly, whatever the order. -/

def parRun (f : α → β) : List Nat → List α → List (Option β) → List (Option β)
  | [], _, acc => acc
  | i :: ord, xs, acc =>
    parRun f ord xs
      (match xs.get? i with
       | some a => acc.set i (some (f a))
       | none => acc)

def my_handler_par (ord : List Nat) (event : KinesisFirehoseEvent) : Option KinesisFirehoseResponse :=
  match sequenceOpt (parRun transform_record ord event.records
      (List.replicate event.records.length none)) with
  | none => none
  | some slots => (sequenceOpt slots).map KinesisFirehoseResponse.mk

/-- A log line assembled from its seven syntactic parts plus arbitrary
trailing text `t` after the byte-count field:
`host SP ident SP authuser SP [ts] SP "req" SP status SP bytecount t`. -/
def mkLine (h i a ts req st byc t : List Char) : List Char :=
  h ++ ' ' :: (i ++ ' ' :: (a ++ ' ' :: ('[' ::
    (ts ++ ']' :: ' ' :: '"' :: (req ++ '"' :: ' ' :: (st ++ ' ' :: (byc ++ t)))))))

/-- Well-formedness of the non-numeric parts of an assembled log line, each
constraint taken from the corresponding piece of the pattern: `host`
nonempty over `[\d.]`, `ident`/`authuser` nonempty over `\S`, `ts` exactly
one occurrence of the bracketed-timestamp group, `req` nonempty without
quote or newline characters. -/
def lineParts (h i a ts req : List Char) : Prop :=
  h ≠ [] ∧ (∀ c ∈ h, isDigitDot c = true) ∧
  i ≠ [] ∧ (∀ c ∈ i, isNonSpace c = true) ∧
  a ≠ [] ∧ (∀ c ∈ a, isNonSpace c = true) ∧
  tryTs ts = some (ts, []) ∧
  req ≠ [] ∧ (∀ c ∈ req, c ≠ '"' ∧ c ≠ '\n')

instance (h i a ts req : List Char) : Decidable (lineParts h i a ts req) := by
  unfold lineParts
  infer_instance

/-! ## Lemmas about the matcher primitives -/

theorem munch_app (p : Char → Bool) (u v : List Char)
    (hu : ∀ c ∈ u, p c = true)
    (hv : ∀ c, v.head? = some c → p c = false) :
    munch p (u ++ v) = (u, v) := by
  induction u with
  | nil =>
    cases v with
    | nil => rfl
    | cons c cs =>
      have hc := hv c rfl
      simp [munch, hc]
  | cons c cs ih =>
    have hc := hu c (by simp)
    have ih1 := ih (fun x hx => hu x (by simp [hx]))
    simp [munch, hc, ih1]

theorem munch1_app (p : Char → Bool) (u v : List Char)
    (hne : u ≠ [])
    (hu : ∀ c ∈ u, p c = true)
    (hv : ∀ c, v.head? = some c → p c = false) :
    munch1 p (u ++ v) = some (u, v) := by
  cases u with
  | nil => exact absurd rfl hne
  | cons c cs =>
    have hc := hu c (by simp)
    have h2 := munch_app p cs v (fun x hx => hu x (by simp [hx])) hv
    simp [munch1, hc, h2]

theorem munch_inv (p : Char → Bool) :
    ∀ cs u v, munch p cs = (u, v) →
      cs = u ++ v ∧ (∀ c ∈ u, p c = true) ∧ (∀ c, v.head? = some c → p c = false) := by
  intro cs
  induction cs with
  | nil =>
    intro u v h
    simp [munch] at h
    obtain ⟨h1, h2⟩ := h
    subst h1; subst h2
    simp
  | cons c cs ih =>
    intro u v h
    by_cases hc : p c = true
    · simp [munch, hc] at h
      obtain ⟨u', v', huv⟩ : ∃ u' v', munch p cs = (u', v') := ⟨_, _, rfl⟩
      rw [huv] at h
      obtain ⟨h1, h2⟩ := h
      obtain ⟨hcs, hall, hhead⟩ := ih u' v' huv
      subst h1; subst h2; subst hcs
      refine ⟨by simp, ?_, hhead⟩
      intro x hx
      rcases List.mem_cons.mp hx with h | h
      · subst h; exact hc
      · exact hall x h
    · have hc' : p c = false := by simpa using hc
      simp [munch, hc'] at h
      obtain ⟨h1, h2⟩ := h
      subst h1; subst h2
      exact ⟨by simp, by simp, by intro x hx; simp at hx; subst hx; exact hc'⟩

theorem munch1_inv (p : Char → Bool) (cs u v : List Char)
    (h : munch1 p cs = some (u, v)) :
    cs = u ++ v ∧ u ≠ [] ∧ (∀ c ∈ u, p c = true) ∧ (∀ c, v.head? = some c → p c = false) := by
  cases cs with
  | nil => simp [munch1] at h
  | cons c cs =>
    by_cases hc : p c = true
    · simp [munch1, hc] at h
      obtain ⟨u', v', huv⟩ : ∃ u' v', munch p cs = (u', v') := ⟨_, _, rfl⟩
      rw [huv] at h
      obtain ⟨h1, h2⟩ := h
      obtain ⟨hcs, hall, hhead⟩ := munch_inv p cs u' v' huv
      subst h1; subst h2; subst hcs
      refine ⟨by simp, by simp, ?_, hhead⟩
      intro x hx
      rcases List.mem_cons.mp hx with h | h
      · subst h; exact hc
      · exact hall x h
    · have hc' : p c = false := by simpa using hc
      simp [munch1, hc'] at h

theorem expect_inv (c : Char) (cs r : List Char) (h : expect c cs = some r) :
    cs = c :: r := by
  cases cs with
  | nil => simp [expect] at h
  | cons x xs =>
    by_cases hx : x = c
    · subst hx
      simp [expect] at h
      subst h; rfl
    · simp [expect, hx] at h

theorem readDigit_inv (cs : List Char) (d : Char) (r : List Char)
    (h : readDigit cs = some (d, r)) :
    cs = d :: r ∧ d.isDigit = true := by
  cases cs with
  | nil => simp [readDigit] at h
  | cons x xs =>
    by_cases hx : x.isDigit = true
    · simp [readDigit, hx] at h
      obtain ⟨h1, h2⟩ := h
      subst h1; subst h2
      exact ⟨rfl, hx⟩
    · have hx' : x.isDigit = false := by simpa using hx
      simp [readDigit, hx'] at h

/-! ## Transfer lemmas: an exact match of a sub-pattern extends along an
appended continuation -/


/-! ## Transfer lemmas: an exact match of a sub-pattern extends along an
appended continuation -/

theorem tryTs_app (ts r : List Char) (h : tryTs ts = some (ts, [])) :
    tryTs (ts ++ r) = some (ts, r) := by
  unfold tryTs at h
  cases hm : munch1 isTsWord ts with
  | none => rw [hm] at h; simp at h
  | some p =>
    obtain ⟨u, rest⟩ := p
    rw [hm] at h
    obtain ⟨hts, hne, hall, hhead⟩ := munch1_inv _ _ _ _ hm
    cases rest with
    | nil => simp at h
    | cons w rest1 =>
      by_cases hw : isSpaceU w = true
      · simp only [hw, if_true] at h
        cases rest1 with
        | nil => simp at h
        | cons s rest2 =>
          by_cases hs : isSign s = true
          · simp only [hs, if_true] at h
            cases hd1 : readDigit rest2 with
            | none => simp only [hd1] at h; exact Option.noConfusion h
            | some p1 =>
              obtain ⟨d1, r3⟩ := p1
              simp only [hd1] at h
              obtain ⟨hrest2, hd1d⟩ := readDigit_inv _ _ _ hd1
              cases hd2 : readDigit r3 with
              | none => simp only [hd2] at h; exact Option.noConfusion h
              | some p2 =>
                obtain ⟨d2, r4⟩ := p2
                simp only [hd2] at h
                obtain ⟨hr3, hd2d⟩ := readDigit_inv _ _ _ hd2
                cases r4 with
                | nil => simp at h
                | cons c0 r5 =>
                  by_cases hc0 : c0 = ':'
                  · subst hc0
                    simp only [if_true] at h
                    cases hd3 : readDigit r5 with
                    | none => simp only [hd3] at h; exact Option.noConfusion h
                    | some p3 =>
                      obtain ⟨d3, r6⟩ := p3
                      simp only [hd3] at h
                      obtain ⟨hr5, hd3d⟩ := readDigit_inv _ _ _ hd3
                      cases hd4 : readDigit r6 with
                      | none => simp only [hd4] at h; exact Option.noConfusion h
                      | some p4 =>
                        obtain ⟨d4, r7⟩ := p4
                        simp only [hd4, Option.some.injEq, Prod.mk.injEq] at h
                        obtain ⟨hcap, hr7⟩ := h
                        subst hr7
                        obtain ⟨hr6, hd4d⟩ := readDigit_inv _ _ _ hd4
                        have hts2 : ts = u ++ w :: s :: d1 :: d2 :: ':' :: d3 :: d4 :: [] := by
                          rw [hts, hrest2, hr3, hr5, hr6]
                        have hgoal : munch1 isTsWord (ts ++ r) =
                            some (u, w :: s :: d1 :: d2 :: ':' :: d3 :: d4 :: r) := by
                          rw [hts2, List.append_assoc]
                          refine munch1_app isTsWord u _ hne hall ?_
                          intro c hc
                          simp at hc
                          subst hc
                          exact hhead w rfl
                        unfold tryTs
                        rw [hgoal]
                        simp [hw, hs, readDigit, hd1d, hd2d, hd3d, hd4d, hts2]
                  · simp only [hc0, if_false] at h
                    cases hd3 : readDigit (c0 :: r5) with
                    | none => simp only [hd3] at h; exact Option.noConfusion h
                    | some p3 =>
                      obtain ⟨d3, r6⟩ := p3
                      simp only [hd3] at h
                      obtain ⟨hr5, hd3d⟩ := readDigit_inv _ _ _ hd3
                      cases hd4 : readDigit r6 with
                      | none => simp only [hd4] at h; exact Option.noConfusion h
                      | some p4 =>
                        obtain ⟨d4, r7⟩ := p4
                        simp only [hd4, Option.some.injEq, Prod.mk.injEq] at h
                        obtain ⟨hcap, hr7⟩ := h
                        subst hr7
                        obtain ⟨hr6, hd4d⟩ := readDigit_inv _ _ _ hd4
                        have hc0d3 : c0 = d3 := by
                          have := hr5
                          simp at this
                          exact this.1
                        have hd3nc : d3 ≠ ':' := by
                          intro hh
                          exact hc0 (by rw [hc0d3, hh])
                        have hr5' : r5 = r6 := by
                          have := hr5
                          simp at this
                          exact this.2
                        have hts2 : ts = u ++ w :: s :: d1 :: d2 :: d3 :: d4 :: [] := by
                          rw [hts, hrest2, hr3, ← hc0d3, hr5', hr6, hc0d3]
                        have hgoal : munch1 isTsWord (ts ++ r) =
                            some (u, w :: s :: d1 :: d2 :: d3 :: d4 :: r) := by
                          rw [hts2, List.append_assoc]
                          refine munch1_app isTsWord u _ hne hall ?_
                          intro c hc
                          simp at hc
                          subst hc
                          exact hhead w rfl
                        unfold tryTs
                        rw [hgoal]
                        simp [hw, hs, readDigit, hd1d, hd2d, hd3d, hd4d, hd3nc, hts2]
          · have hs' : isSign s = false := by simpa using hs
            simp only [hs', if_false] at h
            exact Option.noConfusion h
      · have hw' : isSpaceU w = false := by simpa using hw
        simp only [hw', if_false] at h
        exact Option.noConfusion h

theorem tryTs_head (ts : List Char) (x y : List Char) (h : tryTs ts = some (x, y)) :
    ∃ c rest, ts = c :: rest ∧ isTsWord c = true := by
  unfold tryTs at h
  cases hm : munch1 isTsWord ts with
  | none => rw [hm] at h; simp at h
  | some p =>
    obtain ⟨u, rest⟩ := p
    obtain ⟨hts, hne, hall, _⟩ := munch1_inv _ _ _ _ hm
    cases u with
    | nil => exact absurd rfl hne
    | cons c u1 =>
      exact ⟨c, u1 ++ rest, by rw [hts]; rfl, hall c (by simp)⟩

theorem isDigit_ne (c : Char) (hc : c.isDigit = true) :
    c ≠ '"' ∧ c ≠ '\n' ∧ c ≠ ' ' := by
  refine ⟨?_, ?_, ?_⟩ <;> intro he <;> subst he <;> exact absurd hc (by decide)

theorem tryCont_success (s1 s2 s3 : Char) (byc t : List Char)
    (h1 : s1.isDigit = true) (h2 : s2.isDigit = true) (h3 : s3.isDigit = true)
    (hb : byc ≠ []) (hball : ∀ c ∈ byc, c.isDigit = true)
    (ht : ∀ c, t.head? = some c → c.isDigit = false) :
    tryCont ('"' :: ' ' :: s1 :: s2 :: s3 :: ' ' :: (byc ++ t)) = some ([s1, s2, s3], byc) := by
  have hm := munch1_app Char.isDigit byc t hb hball ht
  simp [tryCont, readDigit, h1, h2, h3, hm]

theorem tryCont_none_head (c : Char) (l : List Char) (hc : c ≠ '"') :
    tryCont (c :: l) = none := by
  simp [tryCont, hc]

theorem tryCont_none_st2 (s1 s2 : Char) (rest : List Char)
    (h1 : s1.isDigit = true) (h2 : s2.isDigit = true) :
    tryCont ('"' :: ' ' :: s1 :: s2 :: ' ' :: rest) = none := by
  have hsp : (' ' : Char).isDigit = false := by decide
  simp [tryCont, readDigit, h1, h2, hsp]

theorem tryCont_none_st4 (s1 s2 s3 s4 : Char) (rest : List Char)
    (h1 : s1.isDigit = true) (h2 : s2.isDigit = true) (h3 : s3.isDigit = true)
    (h4 : s4.isDigit = true) :
    tryCont ('"' :: ' ' :: s1 :: s2 :: s3 :: s4 :: rest) = none := by
  have hs4 : s4 ≠ ' ' := (isDigit_ne s4 h4).2.2
  simp [tryCont, readDigit, h1, h2, h3, hs4]

theorem g5loop_nil (acc : List Char) : g5loop acc [] = none := rfl

theorem g5loop_skip (pre : List Char) (hpre : ∀ c ∈ pre, c ≠ '"' ∧ c ≠ '\n') :
    ∀ acc rest, g5loop acc (pre ++ rest) = g5loop (pre.reverse ++ acc) rest := by
  induction pre with
  | nil => intro acc rest; simp
  | cons c cs ih =>
    intro acc rest
    have hc := hpre c (by simp)
    have ih1 := ih (fun x hx => hpre x (by simp [hx])) (c :: acc) rest
    show g5loop acc (c :: (cs ++ rest)) = _
    rw [g5loop, tryCont_none_head c _ hc.1]
    simp only [hc.2, if_false]
    rw [ih1]
    simp

theorem g5loop_none (rest : List Char) (hrest : ∀ c ∈ rest, c ≠ '"' ∧ c ≠ '\n')
    (acc : List Char) : g5loop acc rest = none := by
  have h := g5loop_skip rest hrest acc []
  rw [List.append_nil] at h
  rw [h]
  rfl

theorem expect_cons_self (c : Char) (l : List Char) : expect c (c :: l) = some l := by
  simp [expect]

theorem isTsWord_ne_rbracket (c : Char) (hc : isTsWord c = true) : c ≠ ']' := by
  intro he
  subst he
  exact absurd hc (by decide)

/-- On a well-formed assembled line, the anchored part of the pattern up to
`\] ` matches deterministically; what remains is the behaviour of
` "(.+?)" (\d{3}) (\d+)` on the tail, with the fallback to a zero-width
occurrence of the optional group ruled out because the timestamp text does
not start with `]`. -/
theorem matchRE_mkLine_reduce (h i a ts req st byc t : List Char)
    (hp : lineParts h i a ts req) :
    matchRE (mkLine h i a ts req st byc t) =
      match afterBracket (' ' :: '"' :: (req ++ '"' :: ' ' :: (st ++ ' ' :: (byc ++ t)))) with
      | none => none
      | some (g5, g6, g7) => some ⟨h, i, a, some ts, g5, g6, g7⟩ := by
  obtain ⟨hh1, hh2, hi1, hi2, ha1, ha2, hts, hreq1, hreq2⟩ := hp
  have e1 : munch1 isDigitDot (mkLine h i a ts req st byc t) =
      some (h, ' ' :: (i ++ ' ' :: (a ++ ' ' :: ('[' ::
        (ts ++ ']' :: ' ' :: '"' :: (req ++ '"' :: ' ' :: (st ++ ' ' :: (byc ++ t)))))))) := by
    unfold mkLine
    exact munch1_app _ _ _ hh1 hh2 (by intro c hc; simp at hc; subst hc; decide)
  have e2 : munch1 isNonSpace (i ++ ' ' :: (a ++ ' ' :: ('[' ::
        (ts ++ ']' :: ' ' :: '"' :: (req ++ '"' :: ' ' :: (st ++ ' ' :: (byc ++ t))))))) =
      some (i, ' ' :: (a ++ ' ' :: ('[' ::
        (ts ++ ']' :: ' ' :: '"' :: (req ++ '"' :: ' ' :: (st ++ ' ' :: (byc ++ t))))))) :=
    munch1_app _ _ _ hi1 hi2 (by intro c hc; simp at hc; subst hc; decide)
  have e3 : munch1 isNonSpace (a ++ ' ' :: ('[' ::
        (ts ++ ']' :: ' ' :: '"' :: (req ++ '"' :: ' ' :: (st ++ ' ' :: (byc ++ t)))))) =
      some (a, ' ' :: ('[' ::
        (ts ++ ']' :: ' ' :: '"' :: (req ++ '"' :: ' ' :: (st ++ ' ' :: (byc ++ t)))))) :=
    munch1_app _ _ _ ha1 ha2 (by intro c hc; simp at hc; subst hc; decide)
  have e4 : tryTs (ts ++ ']' :: ' ' :: '"' :: (req ++ '"' :: ' ' :: (st ++ ' ' :: (byc ++ t)))) =
      some (ts, ']' :: ' ' :: '"' :: (req ++ '"' :: ' ' :: (st ++ ' ' :: (byc ++ t)))) :=
    tryTs_app _ _ hts
  simp only [matchRE, e1, e2, e3, e4, expect_cons_self]
  cases hab : afterBracket (' ' :: '"' :: (req ++ '"' :: ' ' :: (st ++ ' ' :: (byc ++ t)))) with
  | none =>
    simp only
    obtain ⟨c, rest, hts2, hcw⟩ := tryTs_head ts _ _ hts
    rw [hts2]
    simp [expect, isTsWord_ne_rbracket c hcw]
  | some g =>
    obtain ⟨g5, g6, g7⟩ := g
    simp only

theorem afterBracket_success (req : List Char) (s1 s2 s3 : Char) (byc t : List Char)
    (hreq1 : req ≠ []) (hreq2 : ∀ c ∈ req, c ≠ '"' ∧ c ≠ '\n')
    (h1 : s1.isDigit = true) (h2 : s2.isDigit = true) (h3 : s3.isDigit = true)
    (hb : byc ≠ []) (hball : ∀ c ∈ byc, c.isDigit = true)
    (ht : ∀ c, t.head? = some c → c.isDigit = false) :
    afterBracket (' ' :: '"' :: (req ++ '"' :: ' ' :: ([s1, s2, s3] ++ ' ' :: (byc ++ t)))) =
      some (req, [s1, s2, s3], byc) := by
  cases req with
  | nil => exact absurd rfl hreq1
  | cons c0 req1 =>
    have hc0 := hreq2 c0 (by simp)
    have hskip := g5loop_skip req1 (fun x hx => hreq2 x (by simp [hx])) [c0]
      ('"' :: ' ' :: (s1 :: s2 :: s3 :: ' ' :: (byc ++ t)))
    have hcont := tryCont_success s1 s2 s3 byc t h1 h2 h3 hb hball ht
    simp only [afterBracket, expect_cons_self, List.cons_append, List.nil_append]
    simp only [hc0.2, if_false]
    rw [hskip, g5loop, hcont]
    simp

theorem afterBracket_fail_st (req st byc : List Char)
    (hreq1 : req ≠ []) (hreq2 : ∀ c ∈ req, c ≠ '"' ∧ c ≠ '\n')
    (hst : st.length = 2 ∨ st.length = 4) (hstall : ∀ c ∈ st, c.isDigit = true)
    (hb : byc ≠ []) (hball : ∀ c ∈ byc, c.isDigit = true) :
    afterBracket (' ' :: '"' :: (req ++ '"' :: ' ' :: (st ++ ' ' :: byc))) = none := by
  cases req with
  | nil => exact absurd rfl hreq1
  | cons c0 req1 =>
    have hc0 := hreq2 c0 (by simp)
    have hskip := g5loop_skip req1 (fun x hx => hreq2 x (by simp [hx])) [c0]
      ('"' :: ' ' :: (st ++ ' ' :: byc))
    have hcont : tryCont ('"' :: ' ' :: (st ++ ' ' :: byc)) = none := by
      rcases hst with hl | hl
      · match st, hl with
        | [a1, a2], _ =>
          exact tryCont_none_st2 a1 a2 byc (hstall a1 (by simp)) (hstall a2 (by simp))
      · match st, hl with
        | [a1, a2, a3, a4], _ =>
          exact tryCont_none_st4 a1 a2 a3 (a4) (' ' :: byc) (hstall a1 (by simp))
            (hstall a2 (by simp)) (hstall a3 (by simp)) (hstall a4 (by simp))
    have hafter : ∀ c ∈ (' ' :: (st ++ ' ' :: byc)), c ≠ '"' ∧ c ≠ '\n' := by
      intro c hc
      simp at hc
      rcases hc with hc | hc | hc | hc
      · subst hc; exact ⟨by decide, by decide⟩
      · have := isDigit_ne c (hstall c hc); exact ⟨this.1, this.2.1⟩
      · subst hc; exact ⟨by decide, by decide⟩
      · have := isDigit_ne c (hball c hc); exact ⟨this.1, this.2.1⟩
    simp only [afterBracket, expect_cons_self, List.cons_append]
    simp only [hc0.2, if_false]
    rw [hskip, g5loop, hcont]
    simp only
    rw [g5loop_none _ hafter]
    decide

/-- A well-formed line with a three-digit status matches, capturing exactly
its parts; trailing text `t` that does not begin with a digit is ignored. -/
theorem matchRE_mkLine_ok (h i a ts req st byc t : List Char)
    (hp : lineParts h i a ts req)
    (hst3 : st.length = 3) (hstd : ∀ c ∈ st, c.isDigit = true)
    (hb : byc ≠ []) (hball : ∀ c ∈ byc, c.isDigit = true)
    (ht : ∀ c, t.head? = some c → c.isDigit = false) :
    matchRE (mkLine h i a ts req st byc t) = some ⟨h, i, a, some ts, req, st, byc⟩ := by
  have hp2 := hp
  obtain ⟨_, _, _, _, _, _, _, hreq1, hreq2⟩ := hp2
  match st, hst3 with
  | [s1, s2, s3], _ =>
    rw [matchRE_mkLine_reduce h i a ts req [s1, s2, s3] byc t hp]
    rw [show ([s1, s2, s3] : List Char) ++ ' ' :: (byc ++ t) =
        [s1, s2, s3] ++ ' ' :: (byc ++ t) from rfl]
    rw [afterBracket_success req s1 s2 s3 byc t hreq1 hreq2
      (hstd s1 (by simp)) (hstd s2 (by simp)) (hstd s3 (by simp)) hb hball ht]

/-- A well-formed line whose status token has two or four digits does not
match the pattern at all. -/
theorem matchRE_mkLine_badStatus (h i a ts req st byc : List Char)
    (hp : lineParts h i a ts req)
    (hst : st.length = 2 ∨ st.length = 4) (hstall : ∀ c ∈ st, c.isDigit = true)
    (hb : byc ≠ []) (hball : ∀ c ∈ byc, c.isDigit = true) :
    matchRE (mkLine h i a ts req st byc []) = none := by
  have hp2 := hp
  obtain ⟨_, _, _, _, _, _, _, hreq1, hreq2⟩ := hp2
  rw [matchRE_mkLine_reduce h i a ts req st byc [] hp]
  simp only [List.append_nil]
  rw [afterBracket_fail_st req st byc hreq1 hreq2 hst hstall hb hball]

/-! ## Numeric lemmas -/

theorem isDigit_toNat (c : Char) (hc : c.isDigit = true) : 48 ≤ c.toNat ∧ c.toNat ≤ 57 := by
  simp [Char.isDigit, UInt32.le_def, BitVec.le_def, Char.toNat, UInt32.toNat] at hc
  exact hc

theorem natOfDigitsAux_nil (acc : Nat) : natOfDigitsAux acc [] = acc := rfl

theorem natOfDigitsAux_cons (acc : Nat) (c : Char) (cs : List Char) :
    natOfDigitsAux acc (c :: cs) = natOfDigitsAux (acc * 10 + (c.toNat - 48)) cs := rfl

theorem natOfDigitsAux_lt (cs : List Char) (hall : ∀ c ∈ cs, c.isDigit = true) :
    ∀ acc, natOfDigitsAux acc cs < (acc + 1) * 10 ^ cs.length := by
  induction cs with
  | nil =>
    intro acc
    rw [natOfDigitsAux_nil]
    have h0 : (0:Nat) < 10 ^ ([] : List Char).length := Nat.pos_pow_of_pos _ (by norm_num)
    nlinarith
  | cons c cs ih =>
    intro acc
    have hd : c.toNat - 48 ≤ 9 := by
      have := isDigit_toNat c (hall c (by simp))
      omega
    have h1 := ih (fun x hx => hall x (by simp [hx])) (acc * 10 + (c.toNat - 48))
    have h3 : acc * 10 + (c.toNat - 48) + 1 ≤ (acc + 1) * 10 := by omega
    have h4 := Nat.mul_le_mul_right (k := 10 ^ cs.length) h3
    have hlen : (c :: cs).length = cs.length + 1 := rfl
    rw [natOfDigitsAux_cons, hlen, pow_succ]
    refine lt_of_lt_of_le h1 (le_trans h4 ?_)
    ring_nf
    exact le_refl _

theorem natOfDigits_lt (cs : List Char) (hall : ∀ c ∈ cs, c.isDigit = true) :
    natOfDigits cs < 10 ^ cs.length := by
  have h := natOfDigitsAux_lt cs hall 0
  rw [natOfDigits]
  omega

theorem isDigit_ne_plus (c : Char) (hc : c.isDigit = true) : c ≠ '+' := by
  intro he
  subst he
  exact absurd hc (by decide)

/-- On a nonempty all-digit string, `u32` parsing succeeds exactly when the
denoted value fits (the checked fold's accumulator is monotone, so the
step-by-step overflow check is equivalent to a check on the final value). -/
theorem parseU32_digits (ds : List Char) (hne : ds ≠ []) (hall : ∀ c ∈ ds, c.isDigit = true) :
    parseU32 ds = if natOfDigits ds ≤ u32MAX then some (natOfDigits ds) else none := by
  cases ds with
  | nil => exact absurd rfl hne
  | cons c rest =>
    have hc : c ≠ '+' := isDigit_ne_plus c (hall c (by simp))
    have hballl : (c :: rest).all Char.isDigit = true := by
      rw [List.all_eq_true]
      intro x hx
      exact hall x hx
    simp only [parseU32, hc, if_false, hballl, if_true]
    simp

theorem parseU32_some (ds : List Char) (hne : ds ≠ []) (hall : ∀ c ∈ ds, c.isDigit = true)
    (hle : natOfDigits ds ≤ u32MAX) : parseU32 ds = some (natOfDigits ds) := by
  rw [parseU32_digits ds hne hall, if_pos hle]

theorem parseU32_none (ds : List Char) (hne : ds ≠ []) (hall : ∀ c ∈ ds, c.isDigit = true)
    (hgt : u32MAX < natOfDigits ds) : parseU32 ds = none := by
  rw [parseU32_digits ds hne hall, if_neg (by omega)]

/-- A three-digit capture (the status code) always fits in a `u32`. -/
theorem parseU32_threeDigits (ds : List Char) (hlen : ds.length = 3)
    (hall : ∀ c ∈ ds, c.isDigit = true) : parseU32 ds = some (natOfDigits ds) := by
  refine parseU32_some ds ?_ hall ?_
  · intro he
    rw [he] at hlen
    simp at hlen
  · have := natOfDigits_lt ds hall
    rw [hlen] at this
    have h2 : (10:Nat) ^ 3 ≤ u32MAX + 1 := by norm_num [u32MAX]
    omega

/-! ## Provenance of captures 6 and 7 -/

theorem tryCont_inv (cs g6 g7 : List Char) (h : tryCont cs = some (g6, g7)) :
    g6.length = 3 ∧ (∀ c ∈ g6, c.isDigit = true) ∧ g7 ≠ [] ∧ (∀ c ∈ g7, c.isDigit = true) := by
  cases cs with
  | nil => simp [tryCont] at h
  | cons q rest0 =>
    by_cases hq : q = '"'
    · subst hq
      simp only [tryCont, if_true] at h
      cases rest0 with
      | nil => exact Option.noConfusion h
      | cons sp rest1 =>
        by_cases hsp : sp = ' '
        · subst hsp
          simp only [if_true] at h
          cases hd1 : readDigit rest1 with
          | none => simp only [hd1] at h; exact Option.noConfusion h
          | some p1 =>
            obtain ⟨d1, r1⟩ := p1
            simp only [hd1] at h
            obtain ⟨_, hd1d⟩ := readDigit_inv _ _ _ hd1
            cases hd2 : readDigit r1 with
            | none => simp only [hd2] at h; exact Option.noConfusion h
            | some p2 =>
              obtain ⟨d2, r2⟩ := p2
              simp only [hd2] at h
              obtain ⟨_, hd2d⟩ := readDigit_inv _ _ _ hd2
              cases hd3 : readDigit r2 with
              | none => simp only [hd3] at h; exact Option.noConfusion h
              | some p3 =>
                obtain ⟨d3, r3⟩ := p3
                simp only [hd3] at h
                obtain ⟨_, hd3d⟩ := readDigit_inv _ _ _ hd3
                cases r3 with
                | nil => simp at h
                | cons sp2 r4 =>
                  by_cases hsp2 : sp2 = ' '
                  · subst hsp2
                    simp only [if_true] at h
                    cases hm : munch1 Char.isDigit r4 with
                    | none => simp only [hm] at h; exact Option.noConfusion h
                    | some p7 =>
                      obtain ⟨u7, v7⟩ := p7
                      simp only [hm, Option.some.injEq, Prod.mk.injEq] at h
                      obtain ⟨h6, h7⟩ := h
                      obtain ⟨_, hne7, hall7, _⟩ := munch1_inv _ _ _ _ hm
                      subst h6; subst h7
                      exact ⟨rfl, by
                        intro c hc
                        simp at hc
                        rcases hc with hc | hc | hc <;> subst hc <;> assumption,
                        hne7, hall7⟩
                  · simp only [hsp2, if_false] at h
                    exact Option.noConfusion h
        · simp only [hsp, if_false] at h
          exact Option.noConfusion h
    · simp only [tryCont, hq, if_false] at h
      exact Option.noConfusion h

theorem g5loop_inv (rest : List Char) :
    ∀ acc g5 g6 g7, g5loop acc rest = some (g5, g6, g7) →
      g6.length = 3 ∧ (∀ c ∈ g6, c.isDigit = true) ∧ g7 ≠ [] ∧ (∀ c ∈ g7, c.isDigit = true) := by
  induction rest with
  | nil =>
    intro acc g5 g6 g7 h
    rw [g5loop] at h
    simp [tryCont] at h
  | cons c rest1 ih =>
    intro acc g5 g6 g7 h
    rw [g5loop] at h
    cases htc : tryCont (c :: rest1) with
    | some p =>
      obtain ⟨p6, p7⟩ := p
      simp only [htc, Option.some.injEq, Prod.mk.injEq] at h
      obtain ⟨h5, h6, h7⟩ := h
      subst h6; subst h7
      exact tryCont_inv _ _ _ htc
    | none =>
      simp only [htc] at h
      by_cases hc : c = '\n'
      · simp [hc] at h
      · simp only [hc, if_false] at h
        exact ih (c :: acc) g5 g6 g7 h

theorem afterBracket_inv (cs g5 g6 g7 : List Char)
    (h : afterBracket cs = some (g5, g6, g7)) :
    g6.length = 3 ∧ (∀ c ∈ g6, c.isDigit = true) ∧ g7 ≠ [] ∧ (∀ c ∈ g7, c.isDigit = true) := by
  unfold afterBracket at h
  cases he1 : expect ' ' cs with
  | none => rw [he1] at h; exact Option.noConfusion h
  | some r1 =>
    simp only [he1] at h
    cases he2 : expect '"' r1 with
    | none => simp only [he2] at h; exact Option.noConfusion h
    | some r2 =>
      simp only [he2] at h
      cases r2 with
      | nil => exact Option.noConfusion h
      | cons c r3 =>
        by_cases hc : c = '\n'
        · simp [hc] at h
        · simp only [hc, if_false] at h
          exact g5loop_inv r3 [c] g5 g6 g7 h

theorem matchRE_g67 (cs : List Char) (caps : Caps) (h : matchRE cs = some caps) :
    caps.g6.length = 3 ∧ (∀ c ∈ caps.g6, c.isDigit = true) ∧
    caps.g7 ≠ [] ∧ (∀ c ∈ caps.g7, c.isDigit = true) := by
  unfold matchRE at h
  cases h1 : munch1 isDigitDot cs with
  | none => rw [h1] at h; exact Option.noConfusion h
  | some p1 =>
    obtain ⟨g1, r1⟩ := p1
    simp only [h1] at h
    cases h2 : expect ' ' r1 with
    | none => simp only [h2] at h; exact Option.noConfusion h
    | some r2 =>
      simp only [h2] at h
      cases h3 : munch1 isNonSpace r2 with
      | none => simp only [h3] at h; exact Option.noConfusion h
      | some p2 =>
        obtain ⟨g2, r3⟩ := p2
        simp only [h3] at h
        cases h4 : expect ' ' r3 with
        | none => simp only [h4] at h; exact Option.noConfusion h
        | some r4 =>
          simp only [h4] at h
          cases h5 : munch1 isNonSpace r4 with
          | none => simp only [h5] at h; exact Option.noConfusion h
          | some p3 =>
            obtain ⟨g3, r5⟩ := p3
            simp only [h5] at h
            cases h6 : expect ' ' r5 with
            | none => simp only [h6] at h; exact Option.noConfusion h
            | some r6 =>
              simp only [h6] at h
              cases h7 : expect '[' r6 with
              | none => simp only [h7] at h; exact Option.noConfusion h
              | some r7 =>
                simp only [h7] at h
                cases h8 : tryTs r7 with
                | some p4 =>
                  obtain ⟨cap4, r8⟩ := p4
                  simp only [h8] at h
                  cases h9 : expect ']' r8 with
                  | none =>
                    simp only [h9] at h
                    cases h10 : expect ']' r7 with
                    | none => simp only [h10] at h; exact Option.noConfusion h
                    | some r9 =>
                      simp only [h10] at h
                      cases h11 : afterBracket r9 with
                      | none => simp only [h11] at h; exact Option.noConfusion h
                      | some p5 =>
                        obtain ⟨g5, g6, g7⟩ := p5
                        simp only [h11, Option.some.injEq] at h
                        subst h
                        exact afterBracket_inv _ _ _ _ h11
                  | some r9 =>
                    simp only [h9] at h
                    cases h11 : afterBracket r9 with
                    | none =>
                      simp only [h11] at h
                      cases h12 : expect ']' r7 with
                      | none => simp only [h12] at h; exact Option.noConfusion h
                      | some r10 =>
                        simp only [h12] at h
                        cases h13 : afterBracket r10 with
                        | none => simp only [h13] at h; exact Option.noConfusion h
                        | some p6 =>
                          obtain ⟨g5, g6, g7⟩ := p6
                          simp only [h13, Option.some.injEq] at h
                          subst h
                          exact afterBracket_inv _ _ _ _ h13
                    | some p5 =>
                      obtain ⟨g5, g6, g7⟩ := p5
                      simp only [h11, Option.some.injEq] at h
                      subst h
                      exact afterBracket_inv _ _ _ _ h11
                | none =>
                  simp only [h8] at h
                  cases h10 : expect ']' r7 with
                  | none => simp only [h10] at h; exact Option.noConfusion h
                  | some r9 =>
                    simp only [h10] at h
                    cases h11 : afterBracket r9 with
                    | none => simp only [h11] at h; exact Option.noConfusion h
                    | some p5 =>
                      obtain ⟨g5, g6, g7⟩ := p5
                      simp only [h11, Option.some.injEq] at h
                      subst h
                      exact afterBracket_inv _ _ _ _ h11

/-! ## Pipeline-level lemmas -/

theorem apache_ok_inv (cs : List Char) (v : Value)
    (h : apache_log2json cs = some (.ok v)) :
    ∃ caps ts dt, matchRE cs = some caps ∧ caps.g4 = some ts ∧ normalizeTs ts = some dt ∧
      natOfDigits caps.g6 ≤ u32MAX ∧ natOfDigits caps.g7 ≤ u32MAX ∧
      v = AccessLog.toValue ⟨caps.g1, caps.g2, caps.g3, toRFC3339 dt,
        toRFC3339 (withTimezoneUtc dt), caps.g5, natOfDigits caps.g6, natOfDigits caps.g7⟩ := by
  unfold apache_log2json at h
  cases h1 : matchRE cs with
  | none => simp [h1] at h
  | some caps =>
    simp only [h1] at h
    obtain ⟨hlen6, hd6, hne7, hd7⟩ := matchRE_g67 cs caps h1
    cases h2 : caps.g4 with
    | none => simp only [h2] at h; exact Option.noConfusion h
    | some ts =>
      simp only [h2] at h
      cases h3 : normalizeTs ts with
      | none => simp [h3] at h
      | some dt =>
        simp only [h3] at h
        have hne6 : caps.g6 ≠ [] := by
          intro he
          rw [he] at hlen6
          simp at hlen6
        rw [parseU32_digits _ hne6 hd6, parseU32_digits _ hne7 hd7] at h
        by_cases hb6 : natOfDigits caps.g6 ≤ u32MAX
        · rw [if_pos hb6] at h
          by_cases hb7 : natOfDigits caps.g7 ≤ u32MAX
          · rw [if_pos hb7] at h
            simp only [Option.some.injEq, Except.ok.injEq] at h
            exact ⟨caps, ts, dt, rfl, h2, h3, hb6, hb7, h.symm⟩
          · rw [if_neg hb7] at h
            simp at h
        · rw [if_neg hb6] at h
          simp at h

theorem transform_record_err (r : KinesisFirehoseEventRecord) (e : LogError)
    (h : transform_data r.data = some (.error e)) :
    transform_record r = some ⟨r.record_id, r.data, none⟩ := by
  unfold transform_record
  rw [h]

theorem transform_record_id (r : KinesisFirehoseEventRecord)
    (x : KinesisFirehoseResponseRecord) (h : transform_record r = some x) :
    x.record_id = r.record_id := by
  unfold transform_record at h
  cases hd : transform_data r.data with
  | none => rw [hd] at h; exact Option.noConfusion h
  | some res =>
    rw [hd] at h
    cases res with
    | ok y => simp only [Option.some.injEq] at h; rw [← h]
    | error e => simp only [Option.some.injEq] at h; rw [← h]

theorem transform_data_err_of_apache (data : List Nat) (cs : List Char) (e : LogError)
    (hdec : utf8Decode data = some cs)
    (hap : apache_log2json cs = some (.error e)) :
    transform_data data = some (.error e) := by
  unfold transform_data
  rw [hdec]
  simp only [hap]

/-! ## Lemmas about batch collection -/

theorem sequenceOpt_length {α : Type} (l : List (Option α)) (out : List α)
    (h : sequenceOpt l = some out) : out.length = l.length := by
  induction l generalizing out with
  | nil =>
    have h0 : (some ([] : List α)) = some out := h
    have h1 : out = [] := by simpa using h0.symm
    subst h1
    rfl
  | cons x l ih =>
    cases x with
    | none => simp [sequenceOpt] at h
    | some a =>
      simp only [sequenceOpt] at h
      cases hs : sequenceOpt l with
      | none => rw [hs] at h; simp at h
      | some out1 =>
        rw [hs] at h
        simp only [Option.map_some', Option.some.injEq] at h
        rw [← h]
        simp [ih out1 hs]

theorem sequenceOpt_get? {α : Type} (l : List (Option α)) (out : List α)
    (h : sequenceOpt l = some out) :
    ∀ j, l.get? j = (out.get? j).map some := by
  induction l generalizing out with
  | nil =>
    have h0 : (some ([] : List α)) = some out := h
    have h1 : out = [] := by simpa using h0.symm
    subst h1
    intro j
    simp
  | cons x l ih =>
    cases x with
    | none => simp [sequenceOpt] at h
    | some a =>
      simp only [sequenceOpt] at h
      cases hs : sequenceOpt l with
      | none => rw [hs] at h; simp at h
      | some out1 =>
        rw [hs] at h
        simp only [Option.map_some', Option.some.injEq] at h
        subst h
        intro j
        cases j with
        | zero => simp
        | succ j => simpa using ih out1 hs j

theorem sequenceOpt_map_some {α β : Type} (f : α → β) (xs : List α) :
    sequenceOpt (xs.map (fun a => some (f a))) = some (xs.map f) := by
  induction xs with
  | nil => rfl
  | cons x xs ih => simp [sequenceOpt, ih]

theorem get?_set_general {α : Type} (l : List α) (ii j : Nat) (aa : α) :
    (l.set ii aa)[j]? = if ii = j ∧ j < l.length then some aa else l[j]? := by
  by_cases hij : ii = j
  · subst hij
    by_cases hlt : ii < l.length
    · rw [if_pos ⟨rfl, hlt⟩]
      exact List.getElem?_set_self hlt
    · rw [if_neg (by omega)]
      have h1 : (l.set ii aa).length ≤ ii := by
        rw [List.length_set]
        omega
      rw [List.getElem?_eq_none h1, List.getElem?_eq_none (by omega)]
  · rw [if_neg (by tauto)]
    exact List.getElem?_set_ne hij

theorem parRun_length {α β : Type} (f : α → β) :
    ∀ (ord : List Nat) (xs : List α) (acc : List (Option β)),
      (parRun f ord xs acc).length = acc.length := by
  intro ord
  induction ord with
  | nil => intro xs acc; rfl
  | cons ii ord ih =>
    intro xs acc
    show (parRun f ord xs _).length = _
    cases hx : xs.get? ii with
    | none => simp only [hx]; exact ih xs acc
    | some a =>
      simp only [hx]
      rw [ih]
      exact List.length_set acc ii _

theorem parRun_get? {α β : Type} (f : α → β) :
    ∀ (ord : List Nat) (xs : List α) (acc : List (Option β)), acc.length = xs.length →
      ∀ j, (parRun f ord xs acc)[j]? =
        if j ∈ ord ∧ j < xs.length then (xs[j]?).map (fun a => some (f a)) else acc[j]? := by
  intro ord
  induction ord with
  | nil =>
    intro xs acc hlen j
    simp [parRun]
  | cons ii ord ih =>
    intro xs acc hlen j
    have hstep : parRun f (ii :: ord) xs acc =
        parRun f ord xs (match xs.get? ii with
          | some a => acc.set ii (some (f a))
          | none => acc) := rfl
    rw [hstep]
    cases hx : xs.get? ii with
    | none =>
      simp only [hx]
      have hii : xs.length ≤ ii := List.get?_eq_none.mp hx
      rw [ih xs acc hlen j]
      by_cases hj : j ∈ ord ∧ j < xs.length
      · rw [if_pos hj, if_pos ⟨by simp [hj.1], hj.2⟩]
      · by_cases hj2 : j ∈ ii :: ord ∧ j < xs.length
        · -- then j = ii, impossible since ii is out of range
          rcases hj2 with ⟨hmem, hlt⟩
          rcases List.mem_cons.mp hmem with he | hm
          · omega
          · exact absurd ⟨hm, hlt⟩ hj
        · rw [if_neg hj, if_neg hj2]
    | some a =>
      simp only [hx]
      have hlen2 : (acc.set ii (some (f a))).length = xs.length := by
        rw [List.length_set]
        exact hlen
      rw [ih xs _ hlen2 j, get?_set_general]
      have hiilt : ii < xs.length := by
        by_contra hcon
        rw [List.get?_eq_getElem?, List.getElem?_eq_none (by omega)] at hx
        exact Option.noConfusion hx
      by_cases hj : j ∈ ord ∧ j < xs.length
      · rw [if_pos hj, if_pos ⟨by simp [hj.1], hj.2⟩]
      · rw [if_neg hj]
        by_cases hje : ii = j
        · subst hje
          rw [if_pos ⟨rfl, by omega⟩, if_pos ⟨by simp, hiilt⟩]
          rw [List.get?_eq_getElem?] at hx
          rw [hx]
          rfl
        · rw [if_neg (by rw [hlen]; tauto)]
          by_cases hj2 : j ∈ ii :: ord ∧ j < xs.length
          · rcases hj2 with ⟨hmem, hlt⟩
            rcases List.mem_cons.mp hmem with he | hm
            · exact absurd he.symm hje
            · exact absurd ⟨hm, hlt⟩ hj
          · rw [if_neg hj2]

theorem parRun_covered {α β : Type} (f : α → β) (ord : List Nat) (xs : List α)
    (hcov : ∀ j, j < xs.length → j ∈ ord) :
    parRun f ord xs (List.replicate xs.length none) = xs.map (fun a => some (f a)) := by
  apply List.ext_getElem?
  intro j
  rw [parRun_get? f ord xs _ (by simp) j]
  by_cases hj : j < xs.length
  · rw [if_pos ⟨hcov j hj, hj⟩]
    rw [List.getElem?_map]
  · rw [if_neg (by tauto)]
    rw [List.getElem?_eq_none (by simpa using hj), List.getElem?_eq_none (by simpa using hj)]

/-- Any schedule that processes every index reproduces the in-order
collection: rayon's completion order is invisible in the result. -/
theorem my_handler_par_eq (ord : List Nat) (e : KinesisFirehoseEvent)
    (hcov : ∀ j, j < e.records.length → j ∈ ord) :
    my_handler_par ord e = my_handler e := by
  unfold my_handler_par my_handler
  rw [parRun_covered transform_record ord e.records hcov]
  rw [sequenceOpt_map_some]

/-- Computation of `apache_log2json` on a matching assembled line: the two
status parses and the byte-count parse succeed and the serialized
`AccessLog` is produced. -/
theorem apache_mkLine_ok (host i a ts req st byc t : List Char) (dt : FixedDT)
    (hm : matchRE (mkLine host i a ts req st byc t) = some ⟨host, i, a, some ts, req, st, byc⟩)
    (hts : normalizeTs ts = some dt)
    (hst3 : st.length = 3) (hstd : ∀ c ∈ st, c.isDigit = true)
    (hb : byc ≠ []) (hbd : ∀ c ∈ byc, c.isDigit = true)
    (hbv : natOfDigits byc ≤ u32MAX) :
    apache_log2json (mkLine host i a ts req st byc t) = some (.ok (AccessLog.toValue
      ⟨host, i, a, toRFC3339 dt, toRFC3339 (withTimezoneUtc dt), req,
       natOfDigits st, natOfDigits byc⟩)) := by
  unfold apache_log2json
  simp only [hm, hts, parseU32_threeDigits st hst3 hstd, parseU32_some byc hb hbd hbv]

/-! ## The claims -/

/-- Claim C1 (code bug): the claim states that transforming any record
never raises past the record boundary and always yields one output record.
The code violates this: on a line that matches the pattern with the
optional bracketed-timestamp group absent, `&xs[4]` indexes a
non-participating capture group, which panics; the embedded pipeline
aborts (`none`) instead of producing an output record. -/
theorem c1_totality_code_bug :
    transform_record ⟨("record-1").data,
      utf8Encode ("1.1.1.1 - - [] \"GET /\" 200 123").data⟩ = none := by
  rfl

/-- Claim C2: on every record for which a stage of the transformation
fails — the payload is not valid UTF-8, or the line does not match the
pattern, or the bracketed timestamp is present but unparsable, or a numeric
conversion of the status or byte-count substring fails — the failure is
contained and the emitted record carries the original identifier unchanged
and the original payload bytes, byte for byte.  (The fifth kind of the
taxonomy, serialization failure, cannot occur: `to_value`/`to_vec` are
total on this struct of strings and `u32` values.) -/
theorem c2_fallback_preserves_input (r : KinesisFirehoseEventRecord)
    (h : utf8Decode r.data = none ∨
      ∃ cs, utf8Decode r.data = some cs ∧
        (matchRE cs = none ∨
          ∃ caps ts, matchRE cs = some caps ∧ caps.g4 = some ts ∧
            (normalizeTs ts = none ∨
              ∃ dt, normalizeTs ts = some dt ∧
                (parseU32 caps.g6 = none ∨ parseU32 caps.g7 = none)))) :
    transform_record r = some ⟨r.record_id, r.data, none⟩ := by
  rcases h with h0 | ⟨cs, hdec, h1⟩
  · -- invalid UTF-8: transform_data fails before the pattern stage
    refine transform_record_err r .UTF8Error ?_
    unfold transform_data
    rw [h0]
  · rcases h1 with h1 | ⟨caps, ts, hm, hg4, h2⟩
    · -- pattern mismatch
      refine transform_record_err r .RegexParseError
        (transform_data_err_of_apache _ _ _ hdec ?_)
      unfold apache_log2json
      rw [h1]
    · rcases h2 with h2 | ⟨dt, hts, h3⟩
      · -- timestamp present but unparsable under both format variants
        refine transform_record_err r .DateTimeParseError
          (transform_data_err_of_apache _ _ _ hdec ?_)
        unfold apache_log2json
        simp only [hm, hg4, h2]
      · -- numeric conversion failure on the status or byte-count substring
        rcases h3 with h3 | h3
        · refine transform_record_err r .IntError
            (transform_data_err_of_apache _ _ _ hdec ?_)
          unfold apache_log2json
          simp only [hm, hg4, hts, h3]
        · refine transform_record_err r .IntError
            (transform_data_err_of_apache _ _ _ hdec ?_)
          unfold apache_log2json
          cases hg6 : parseU32 caps.g6 with
          | none => simp only [hm, hg4, hts, hg6]
          | some n6 => simp only [hm, hg4, hts, hg6, h3]

/-- Claim C2 witness: the unparsable line of the spec's fallback-fidelity
property, failing at the pattern stage. -/
theorem c2_fallback_preserves_input_witness :
    transform_record ⟨("id-2").data, utf8Encode ("not a log line").data⟩ =
      some ⟨("id-2").data, utf8Encode ("not a log line").data, none⟩ :=
  c2_fallback_preserves_input ⟨("id-2").data, utf8Encode ("not a log line").data⟩
    (Or.inr ⟨("not a log line").data, by rfl, Or.inl (by rfl)⟩)

/-- Claim C3 counterexample: a singleton batch whose record panics (absent
timestamp group) makes `my_handler` abort, so it does not return exactly N
output records for every batch of N records. -/
theorem c3_counterexample :
    my_handler ⟨[⟨("r1").data, utf8Encode ("2.2.2.2 - - [] \"GET /\" 200 123").data⟩]⟩ =
      none := by
  rfl

/-- Claim C3 (amended): for every batch on which `my_handler` returns (no
record panics), the response has exactly as many records as the input and
the i-th output identifier equals the i-th input identifier. -/
theorem c3_order_preservation (e : KinesisFirehoseEvent) (resp : KinesisFirehoseResponse)
    (h : my_handler e = some resp) :
    resp.records.length = e.records.length ∧
    ∀ j, (resp.records.get? j).map (fun x => x.record_id) =
         (e.records.get? j).map (fun x => x.record_id) := by
  unfold my_handler at h
  cases hs : sequenceOpt (e.records.map transform_record) with
  | none => rw [hs] at h; exact Option.noConfusion h
  | some out =>
    rw [hs] at h
    simp only [Option.map_some', Option.some.injEq] at h
    subst h
    constructor
    · have hl := sequenceOpt_length _ _ hs
      simpa using hl
    · intro j
      have hg := sequenceOpt_get? _ _ hs j
      rw [List.get?_map] at hg
      cases hr : e.records.get? j with
      | none =>
        rw [hr] at hg
        simp only [Option.map_none'] at hg
        cases ho : out.get? j with
        | none => simp [ho]
        | some x => rw [ho] at hg; simp at hg
      | some r =>
        rw [hr] at hg
        simp only [Option.map_some'] at hg
        cases ho : out.get? j with
        | none => rw [ho] at hg; simp at hg
        | some x =>
          rw [ho] at hg
          simp only [Option.map_some', Option.some.injEq] at hg
          simp only [ho, hr, Option.map_some']
          rw [transform_record_id r x hg]

/-- Claim C3 witness: a two-record batch (one transformable record, one
pass-through record); the handler returns both records with identifiers
preserved in order. -/
theorem c3_order_preservation_witness :
    (((my_handler ⟨[⟨("a1").data, utf8Encode ("1.2.3.4 - - [14/Dec/2017:22:16:45 +0900] \"GET /x\" 200 5").data⟩,
                    ⟨("a2").data, utf8Encode ("oops").data⟩]⟩).getD ⟨[]⟩).records.length = 2) ∧
    ((((my_handler ⟨[⟨("a1").data, utf8Encode ("1.2.3.4 - - [14/Dec/2017:22:16:45 +0900] \"GET /x\" 200 5").data⟩,
                    ⟨("a2").data, utf8Encode ("oops").data⟩]⟩).getD ⟨[]⟩).records.get? 0).map (fun x => x.record_id) =
      some ("a1").data) ∧
    ((((my_handler ⟨[⟨("a1").data, utf8Encode ("1.2.3.4 - - [14/Dec/2017:22:16:45 +0900] \"GET /x\" 200 5").data⟩,
                    ⟨("a2").data, utf8Encode ("oops").data⟩]⟩).getD ⟨[]⟩).records.get? 1).map (fun x => x.record_id) =
      some ("a2").data) := by
  have h := c3_order_preservation
    ⟨[⟨("a1").data, utf8Encode ("1.2.3.4 - - [14/Dec/2017:22:16:45 +0900] \"GET /x\" 200 5").data⟩,
      ⟨("a2").data, utf8Encode ("oops").data⟩]⟩
    ((my_handler ⟨[⟨("a1").data, utf8Encode ("1.2.3.4 - - [14/Dec/2017:22:16:45 +0900] \"GET /x\" 200 5").data⟩,
      ⟨("a2").data, utf8Encode ("oops").data⟩]⟩).getD ⟨[]⟩)
    (by rfl)
  refine ⟨by simpa using h.1, ?_, ?_⟩
  · rw [h.2 0]; rfl
  · rw [h.2 1]; rfl

/-- Claim C4: a log line whose status token has two or four digits (rather
than exactly three) fails the pattern entirely, and the record is emitted
as pass-through with the original bytes. -/
theorem c4_bad_status_passthrough
    (host i a ts req st byc : List Char) (r : KinesisFirehoseEventRecord)
    (hp : lineParts host i a ts req)
    (hst : st.length = 2 ∨ st.length = 4) (hstd : ∀ c ∈ st, c.isDigit = true)
    (hb : byc ≠ []) (hbd : ∀ c ∈ byc, c.isDigit = true)
    (hdec : utf8Decode r.data = some (mkLine host i a ts req st byc [])) :
    matchRE (mkLine host i a ts req st byc []) = none ∧
    transform_record r = some ⟨r.record_id, r.data, none⟩ := by
  have hm := matchRE_mkLine_badStatus host i a ts req st byc hp hst hstd hb hbd
  refine ⟨hm, ?_⟩
  refine transform_record_err r .RegexParseError
    (transform_data_err_of_apache _ _ _ hdec ?_)
  unfold apache_log2json
  rw [hm]

/-- Claim C4 witness: a two-digit status code line. -/
theorem c4_bad_status_passthrough_witness :
    matchRE (mkLine ("12.34.56.78").data ("-").data ("frank").data
      ("10/Oct/2000:13:55:36 -0700").data ("GET /x").data ("40").data ("2326").data []) = none ∧
    transform_record ⟨("id-4").data, utf8Encode (mkLine ("12.34.56.78").data ("-").data ("frank").data
      ("10/Oct/2000:13:55:36 -0700").data ("GET /x").data ("40").data ("2326").data [])⟩ =
      some ⟨("id-4").data, utf8Encode (mkLine ("12.34.56.78").data ("-").data ("frank").data
        ("10/Oct/2000:13:55:36 -0700").data ("GET /x").data ("40").data ("2326").data []), none⟩ :=
  c4_bad_status_passthrough ("12.34.56.78").data ("-").data ("frank").data
    ("10/Oct/2000:13:55:36 -0700").data ("GET /x").data ("40").data ("2326").data
    ⟨("id-4").data, utf8Encode (mkLine ("12.34.56.78").data ("-").data ("frank").data
      ("10/Oct/2000:13:55:36 -0700").data ("GET /x").data ("40").data ("2326").data [])⟩
    (by decide) (Or.inl (by decide)) (by decide) (by decide) (by decide) (by rfl)

/-- Claim C5: both offset spellings `+09:00` and `+0900` are accepted; the
result of the normalizer is the result of the first format variant (the
`.or` chain lets the first successful variant win, and chrono's parser
treats `%:z` and `%z` with the same lenient offset scanner), and both
spellings denote the same instant. -/
theorem c5_dual_timestamp_formats :
    parseFromStrColonFmt ("14/Dec/2017:22:16:45 +09:00").data = some ⟨1513257405, 32400⟩ ∧
    parseFromStrColonFmt ("14/Dec/2017:22:16:45 +0900").data = some ⟨1513257405, 32400⟩ ∧
    normalizeTs ("14/Dec/2017:22:16:45 +09:00").data =
      parseFromStrColonFmt ("14/Dec/2017:22:16:45 +09:00").data ∧
    normalizeTs ("14/Dec/2017:22:16:45 +0900").data =
      parseFromStrColonFmt ("14/Dec/2017:22:16:45 +0900").data ∧
    (normalizeTs ("14/Dec/2017:22:16:45 +09:00").data).map FixedDT.naiveUtc =
      (normalizeTs ("14/Dec/2017:22:16:45 +0900").data).map FixedDT.naiveUtc := by
  refine ⟨by rfl, by rfl, by rfl, by rfl, by rfl⟩

/-- Claim C6: on every successfully transformed line, the produced JSON
object's `response` and `bytes` fields are numerically the values denoted
by the status-code and byte-count capture substrings (and both fit in a
`u32`, so the round-trip is lossless), and the two timestamp strings are
the renderings of one and the same stored instant, the UTC one at offset
zero. -/
theorem c6_roundtrip (cs : List Char) (caps : Caps) (ts : List Char) (dt : FixedDT) (v : Value)
    (hm : matchRE cs = some caps) (hg4 : caps.g4 = some ts) (hts : normalizeTs ts = some dt)
    (h : apache_log2json cs = some (.ok v)) :
    jsonLookup ("response").data v = some (.vNum (natOfDigits caps.g6)) ∧
    natOfDigits caps.g6 ≤ u32MAX ∧
    jsonLookup ("bytes").data v = some (.vNum (natOfDigits caps.g7)) ∧
    natOfDigits caps.g7 ≤ u32MAX ∧
    jsonLookup ("@timestamp").data v = some (.vStr (toRFC3339 dt)) ∧
    jsonLookup ("@timestamp_utc").data v = some (.vStr (toRFC3339 (withTimezoneUtc dt))) ∧
    (withTimezoneUtc dt).naiveUtc = dt.naiveUtc ∧
    (withTimezoneUtc dt).offset = 0 := by
  obtain ⟨caps1, ts1, dt1, h1, h2, h3, hb6, hb7, hv⟩ := apache_ok_inv cs v h
  rw [hm] at h1
  have hc : caps1 = caps := by
    have := h1
    simp at this
    exact this.symm
  subst hc
  rw [hg4] at h2
  have hts1 : ts1 = ts := by
    have := h2
    simp at this
    exact this.symm
  subst hts1
  rw [hts] at h3
  have hdt1 : dt1 = dt := by
    have := h3
    simp at this
    exact this.symm
  subst hdt1
  subst hv
  exact ⟨rfl, hb6, rfl, hb7, rfl, rfl, rfl, rfl⟩

/-- Claim C6 witness: a concrete well-formed line. -/
theorem c6_roundtrip_witness :
    jsonLookup ("response").data (AccessLog.toValue
      ⟨("10.0.0.1").data, ("frank").data, ("-").data,
       toRFC3339 ⟨1514862245, 0⟩, toRFC3339 (withTimezoneUtc ⟨1514862245, 0⟩),
       ("POST /a").data, natOfDigits ("301").data, natOfDigits ("42").data⟩) =
      some (.vNum (natOfDigits ("301").data)) ∧
    natOfDigits ("301").data ≤ u32MAX ∧
    jsonLookup ("bytes").data (AccessLog.toValue
      ⟨("10.0.0.1").data, ("frank").data, ("-").data,
       toRFC3339 ⟨1514862245, 0⟩, toRFC3339 (withTimezoneUtc ⟨1514862245, 0⟩),
       ("POST /a").data, natOfDigits ("301").data, natOfDigits ("42").data⟩) =
      some (.vNum (natOfDigits ("42").data)) ∧
    natOfDigits ("42").data ≤ u32MAX ∧
    jsonLookup ("@timestamp").data (AccessLog.toValue
      ⟨("10.0.0.1").data, ("frank").data, ("-").data,
       toRFC3339 ⟨1514862245, 0⟩, toRFC3339 (withTimezoneUtc ⟨1514862245, 0⟩),
       ("POST /a").data, natOfDigits ("301").data, natOfDigits ("42").data⟩) =
      some (.vStr (toRFC3339 ⟨1514862245, 0⟩)) ∧
    jsonLookup ("@timestamp_utc").data (AccessLog.toValue
      ⟨("10.0.0.1").data, ("frank").data, ("-").data,
       toRFC3339 ⟨1514862245, 0⟩, toRFC3339 (withTimezoneUtc ⟨1514862245, 0⟩),
       ("POST /a").data, natOfDigits ("301").data, natOfDigits ("42").data⟩) =
      some (.vStr (toRFC3339 (withTimezoneUtc ⟨1514862245, 0⟩))) ∧
    (withTimezoneUtc ⟨1514862245, 0⟩).naiveUtc = (⟨1514862245, 0⟩ : FixedDT).naiveUtc ∧
    (withTimezoneUtc ⟨1514862245, 0⟩).offset = 0 :=
  c6_roundtrip ("10.0.0.1 frank - [02/Jan/2018:03:04:05 +0000] \"POST /a\" 301 42").data
    ⟨("10.0.0.1").data, ("frank").data, ("-").data,
     some ("02/Jan/2018:03:04:05 +0000").data, ("POST /a").data, ("301").data, ("42").data⟩
    ("02/Jan/2018:03:04:05 +0000").data ⟨1514862245, 0⟩
    (AccessLog.toValue
      ⟨("10.0.0.1").data, ("frank").data, ("-").data,
       toRFC3339 ⟨1514862245, 0⟩, toRFC3339 (withTimezoneUtc ⟨1514862245, 0⟩),
       ("POST /a").data, natOfDigits ("301").data, natOfDigits ("42").data⟩)
    (by rfl) (by rfl) (by rfl) (by rfl)

/-- Claim C7 counterexample: the transformation of the example line
succeeds, but the produced JSON object has no `timestamp` and no
`timestamp_utc` field — those two fields are serialized under the serde
rename names `@timestamp` and `@timestamp_utc`, so the claim's field-name
list is wrong. -/
theorem c7_field_names_counterexample :
    (apache_log2json ("7.248.7.119 - - [14/Dec/2017:22:16:45 +09:00] \"GET /explore\" 200 9947 \"-\" \"Mozilla/5.0...\"").data).map
        (Except.map (jsonLookup ("timestamp").data)) = some (.ok none) ∧
    (apache_log2json ("7.248.7.119 - - [14/Dec/2017:22:16:45 +09:00] \"GET /explore\" 200 9947 \"-\" \"Mozilla/5.0...\"").data).map
        (Except.map (jsonLookup ("timestamp_utc").data)) = some (.ok none) := by
  exact ⟨rfl, rfl⟩

/-- Claim C7 (amended): the example line transforms into exactly the JSON
object with host `7.248.7.119`, ident `-`, authuser `-`, request
`GET /explore`, response 200, bytes 9947, and the two timestamps
`2017-12-14T22:16:45+09:00` / `2017-12-14T13:16:45+00:00` under the
serialized field names `@timestamp` and `@timestamp_utc` (keys in
serde_json's BTreeMap order). -/
theorem c7_example_amended :
    apache_log2json ("7.248.7.119 - - [14/Dec/2017:22:16:45 +09:00] \"GET /explore\" 200 9947 \"-\" \"Mozilla/5.0...\"").data =
      some (.ok (.vObj [
        (("@timestamp").data, .vStr ("2017-12-14T22:16:45+09:00").data),
        (("@timestamp_utc").data, .vStr ("2017-12-14T13:16:45+00:00").data),
        (("authuser").data, .vStr ("-").data),
        (("bytes").data, .vNum 9947),
        (("host").data, .vStr ("7.248.7.119").data),
        (("ident").data, .vStr ("-").data),
        (("request").data, .vStr ("GET /explore").data),
        (("response").data, .vNum 200)])) := by
  rfl

/-- Claim C8: on a line that matches the pattern with a parsable timestamp,
a byte-count digit string denoting a value above `u32::MAX` makes the
`u32` conversion fail, the transformation abort with the numeric error,
and the record fall back to pass-through. -/
theorem c8_bytecount_overflow (cs : List Char) (caps : Caps) (ts : List Char) (dt : FixedDT)
    (r : KinesisFirehoseEventRecord)
    (hm : matchRE cs = some caps) (hg4 : caps.g4 = some ts)
    (hts : normalizeTs ts = some dt)
    (hover : u32MAX < natOfDigits caps.g7)
    (hdec : utf8Decode r.data = some cs) :
    parseU32 caps.g7 = none ∧
    apache_log2json cs = some (.error .IntError) ∧
    transform_record r = some ⟨r.record_id, r.data, none⟩ := by
  obtain ⟨hlen6, hd6, hne7, hd7⟩ := matchRE_g67 cs caps hm
  have hp7 := parseU32_none caps.g7 hne7 hd7 hover
  have hap : apache_log2json cs = some (.error .IntError) := by
    unfold apache_log2json
    simp only [hm, hg4, hts, parseU32_threeDigits caps.g6 hlen6 hd6, hp7]
  exact ⟨hp7, hap,
    transform_record_err r .IntError (transform_data_err_of_apache _ _ _ hdec hap)⟩

/-- Claim C8 witness: byte count 4294967296 = `u32::MAX + 1`. -/
theorem c8_bytecount_overflow_witness :
    parseU32 ("4294967296").data = none ∧
    apache_log2json ("9.9.9.9 - - [14/Dec/2017:22:16:45 +0900] \"GET /big\" 200 4294967296").data =
      some (.error .IntError) ∧
    transform_record ⟨("id-8").data,
        utf8Encode ("9.9.9.9 - - [14/Dec/2017:22:16:45 +0900] \"GET /big\" 200 4294967296").data⟩ =
      some ⟨("id-8").data,
        utf8Encode ("9.9.9.9 - - [14/Dec/2017:22:16:45 +0900] \"GET /big\" 200 4294967296").data,
        none⟩ :=
  c8_bytecount_overflow
    ("9.9.9.9 - - [14/Dec/2017:22:16:45 +0900] \"GET /big\" 200 4294967296").data
    ⟨("9.9.9.9").data, ("-").data, ("-").data, some ("14/Dec/2017:22:16:45 +0900").data,
     ("GET /big").data, ("200").data, ("4294967296").data⟩
    ("14/Dec/2017:22:16:45 +0900").data ⟨1513257405, 32400⟩
    ⟨("id-8").data,
     utf8Encode ("9.9.9.9 - - [14/Dec/2017:22:16:45 +0900] \"GET /big\" 200 4294967296").data⟩
    (by rfl) (by rfl) (by rfl) (by decide) (by rfl)

/-- Claim C9: the pattern is anchored only at the start: a line whose
leading part is the well-formed seven-field shape matches using only that
part (captures are exactly the seven parts), the transformation succeeds
(valid timestamp and numerics), and any trailing text after the byte-count
field that does not extend the digit run is ignored — the output is
identical to the output for the same line without the trailing text, so
nothing from the trailer appears in the JSON. -/
theorem c9_trailing_ignored
    (host i a ts req st byc t : List Char) (dt : FixedDT)
    (hp : lineParts host i a ts req)
    (hst3 : st.length = 3) (hstd : ∀ c ∈ st, c.isDigit = true)
    (hb : byc ≠ []) (hbd : ∀ c ∈ byc, c.isDigit = true)
    (ht : ∀ c, t.head? = some c → c.isDigit = false)
    (hts : normalizeTs ts = some dt)
    (hbv : natOfDigits byc ≤ u32MAX) :
    matchRE (mkLine host i a ts req st byc t) = some ⟨host, i, a, some ts, req, st, byc⟩ ∧
    apache_log2json (mkLine host i a ts req st byc t) = some (.ok (AccessLog.toValue
      ⟨host, i, a, toRFC3339 dt, toRFC3339 (withTimezoneUtc dt), req,
       natOfDigits st, natOfDigits byc⟩)) ∧
    apache_log2json (mkLine host i a ts req st byc t) =
      apache_log2json (mkLine host i a ts req st byc []) := by
  have hm1 := matchRE_mkLine_ok host i a ts req st byc t hp hst3 hstd hb hbd ht
  have hm2 := matchRE_mkLine_ok host i a ts req st byc [] hp hst3 hstd hb hbd
    (by intro c hc; simp at hc)
  have ha1 := apache_mkLine_ok host i a ts req st byc t dt hm1 hts hst3 hstd hb hbd hbv
  have ha2 := apache_mkLine_ok host i a ts req st byc [] dt hm2 hts hst3 hstd hb hbd hbv
  exact ⟨hm1, ha1, by rw [ha1, ha2]⟩

/-- Claim C9 witness: referrer and user-agent trailing text is ignored. -/
theorem c9_trailing_ignored_witness :
    matchRE (mkLine ("7.7.7.7").data ("-").data ("ua").data
        ("14/Dec/2017:22:16:45 +09:00").data ("GET /e").data ("200").data ("17").data
        (" \"-\" \"Mozilla/4.0\"").data) =
      some ⟨("7.7.7.7").data, ("-").data, ("ua").data,
            some ("14/Dec/2017:22:16:45 +09:00").data, ("GET /e").data, ("200").data, ("17").data⟩ ∧
    apache_log2json (mkLine ("7.7.7.7").data ("-").data ("ua").data
        ("14/Dec/2017:22:16:45 +09:00").data ("GET /e").data ("200").data ("17").data
        (" \"-\" \"Mozilla/4.0\"").data) = some (.ok (AccessLog.toValue
      ⟨("7.7.7.7").data, ("-").data, ("ua").data, toRFC3339 ⟨1513257405, 32400⟩,
       toRFC3339 (withTimezoneUtc ⟨1513257405, 32400⟩), ("GET /e").data,
       natOfDigits ("200").data, natOfDigits ("17").data⟩)) ∧
    apache_log2json (mkLine ("7.7.7.7").data ("-").data ("ua").data
        ("14/Dec/2017:22:16:45 +09:00").data ("GET /e").data ("200").data ("17").data
        (" \"-\" \"Mozilla/4.0\"").data) =
    apache_log2json (mkLine ("7.7.7.7").data ("-").data ("ua").data
        ("14/Dec/2017:22:16:45 +09:00").data ("GET /e").data ("200").data ("17").data []) :=
  c9_trailing_ignored ("7.7.7.7").data ("-").data ("ua").data
    ("14/Dec/2017:22:16:45 +09:00").data ("GET /e").data ("200").data ("17").data
    (" \"-\" \"Mozilla/4.0\"").data ⟨1513257405, 32400⟩
    (by decide) (by decide) (by decide) (by decide) (by decide) (by decide)
    (by rfl) (by decide)

/-- Claim C10: the batch transformation is schedule-deterministic: under
any two completion orders that each process every record once (any
permutations of the index range), the collected response — built by input
index as rayon's order-preserving collect does — is identical. -/
theorem c10_schedule_determinism (e : KinesisFirehoseEvent) (ord1 ord2 : List Nat)
    (h1 : ord1.Perm (List.range e.records.length))
    (h2 : ord2.Perm (List.range e.records.length)) :
    my_handler_par ord1 e = my_handler_par ord2 e := by
  have c1 : ∀ j, j < e.records.length → j ∈ ord1 := fun j hj =>
    h1.mem_iff.mpr (List.mem_range.mpr hj)
  have c2 : ∀ j, j < e.records.length → j ∈ ord2 := fun j hj =>
    h2.mem_iff.mpr (List.mem_range.mpr hj)
  rw [my_handler_par_eq ord1 e c1, my_handler_par_eq ord2 e c2]

/-- Claim C10 witness: a two-record batch processed in the two opposite
completion orders. -/
theorem c10_schedule_determinism_witness :
    my_handler_par [1, 0] ⟨[⟨("b1").data, utf8Encode ("first").data⟩,
                            ⟨("b2").data, utf8Encode ("second").data⟩]⟩ =
    my_handler_par [0, 1] ⟨[⟨("b1").data, utf8Encode ("first").data⟩,
                            ⟨("b2").data, utf8Encode ("second").data⟩]⟩ :=
  c10_schedule_determinism
    ⟨[⟨("b1").data, utf8Encode ("first").data⟩, ⟨("b2").data, utf8Encode ("second").data⟩]⟩
    [1, 0] [0, 1] (by decide) (by decide)
